import Mathlib

/-!
Verification of the driver portion of the experimental dependency system
(`lib/Driver/ExperimentalDependencyDriverGraph.cpp`).

The embedding is a shallow one: the mutable `DriverGraph` of the C++ source is
modelled as a pure record of lists, and each C++ member function becomes a pure
Lean function from the old state to the new state.  Unordered maps and sets of
the source are modelled as lists with insert-if-absent discipline; a node
placed in the two-level node map is modelled by a `DriverNode` value whose
bucket is derived from its own `swiftDeps` field (the empty string standing for
the missing swiftDeps, exactly as in the map key convention checked by the
source `verify`).  Jobs are identified with their swiftDeps string, which is
the only attribute of a `Job` the source consults (`getSwiftDeps(job)`).
-/

namespace ExperimentalDeps

/-- Modelled from the spec: the closed enumeration of dependency kinds
(`NodeKind` in `Basic/ReferenceDependencyKeys.h`, which is not part of the
sources under review).  Per the spec, the kinds are: top-level name, nominal
type, member, dynamic-lookup member, source-file-provides, external
dependency. -/
inductive NodeKind where
  | topLevel
  | nominalType
  | member
  | dynamicLookup
  | sourceFileProvide
  | externalDepend
deriving DecidableEq

/-- Modelled from the spec: `DependencyKey` (declared in the missing header
`ExperimentalDependencies.h`) is an immutable value (kind, context, name);
kinds additionally carry the interface/implementation distinction, and
`isInterface` is a pure function of the kind.  We record that distinction as a
boolean component of the key. -/
structure DependencyKey where
  kind : NodeKind
  isInterfaceAspect : Bool
  context : String
  name : String
deriving DecidableEq

/-- Modelled from the spec: `isInterface()` of a `DependencyKey` is a pure
function of the kind component. -/
def DependencyKey.isInterface (k : DependencyKey) : Bool :=
  k.isInterfaceAspect

/-- Modelled from the spec: a node of a freshly loaded per-unit snapshot
(`FrontendNode`, declared in the missing header): a key, an optional
fingerprint, and an optional owning swiftDeps (absent for expatriate facts). -/
structure FrontendNode where
  key : DependencyKey
  fingerprint : Option String
  swiftDeps : Option String
deriving DecidableEq

/-- Modelled from the spec: a deserialized per-unit snapshot
(`FrontendGraph`): the swiftDeps answered by
`getSwiftDepsFromSourceFileProvide`, the nodes in the order `forEachNode`
yields them, and the local def-to-use edges, `uses` listing the pairs
(defNode, useNode) that `forEachUseOf` walks. -/
structure FrontendGraph where
  swiftDeps : String
  nodes : List FrontendNode
  uses : List (FrontendNode × FrontendNode)
deriving DecidableEq

/-- Modelled from the spec: `forEachUseOf` of a `FrontendGraph` yields every
node that uses the given node. -/
def FrontendGraph.forEachUseOf (g : FrontendGraph) (n : FrontendNode) :
    List FrontendNode :=
  (g.uses.filter (fun p => decide (p.1 = n))).map (fun p => p.2)

/-- A persistent node of the driver graph (`DriverNode`, declared in the
missing header): same shape as a frontend node; `swiftDeps = none` is an
expatriate node. -/
structure DriverNode where
  key : DependencyKey
  fingerprint : Option String
  swiftDeps : Option String
deriving DecidableEq

/-- The bucket string under which a node is filed in the two-level node map:
its swiftDeps, or the empty string for an expatriate node (the convention the
source `verify` checks at lines 379-388). -/
def swiftDepsKey (n : DriverNode) : String :=
  n.swiftDeps.getD ""

/-- The bucket string a frontend node targets: its swiftDeps or the empty
string. -/
def frontendDepsKey (n : FrontendNode) : String :=
  n.swiftDeps.getD ""

/-- The result of loading a swiftdeps file
(`DependencyGraphImpl::LoadResult`). -/
inductive LoadResult where
  | upToDate
  | affectsDownstream
  | hadError
deriving DecidableEq

/-- The persistent driver graph state: the node store (`nodeMap`, with bucket
derived from each node), the accumulated def-to-use edge index `usesByDef`,
the set of external dependency names, the set of cascading jobs (by
swiftDeps), and the job correspondence `jobsBySwiftDeps` (a job being
identified with its swiftDeps). -/
structure DriverGraph where
  nodes : List DriverNode
  usesByDef : List (DependencyKey × List DependencyKey)
  externalDependencies : List String
  cascadingJobs : List String
  jobsBySwiftDeps : List String
deriving DecidableEq

/-- The freshly constructed driver graph of a build session. -/
def emptyGraph : DriverGraph :=
  ⟨[], [], [], [], []⟩

/-- Insert an element into a set-as-list unless already present (the
behaviour of an stl set insert up to iteration order, which the source never
relies on). -/
def insertOnce {α : Type} [DecidableEq α] (l : List α) (x : α) : List α :=
  if x ∈ l then l else l ++ [x]

/-- `nodeMap.find(swiftDeps, key)`: the node filed under the given bucket and
key, if any. -/
def findNode (st : DriverGraph) (s : String) (k : DependencyKey) :
    Option DriverNode :=
  st.nodes.find? (fun n => decide (swiftDepsKey n = s ∧ n.key = k))

/-- `nodeMap[key].size()`: how many nodes (across all buckets, the expatriate
bucket included) carry the given key. -/
def countNodesWithKey (st : DriverGraph) (k : DependencyKey) : Nat :=
  (st.nodes.filter (fun n => decide (n.key = k))).length

/-- Replace the fingerprint of the node filed at (bucket, key).  Models the
in-place `setFingerprint` of the node the map holds at that slot. -/
def replaceFingerprint (st : DriverGraph) (s : String) (k : DependencyKey)
    (fp : Option String) : DriverGraph :=
  { st with
    nodes := st.nodes.map (fun n =>
      if swiftDepsKey n = s ∧ n.key = k then { n with fingerprint := fp }
      else n) }

/-- Modelled from the spec: `moveNodeToDifferentFile` (declared in the missing
header) relocates the node at (bucket, key) so that its owning swiftDeps
becomes `d` (re-indexing it under the bucket derived from `d`). -/
def moveNodeToDifferentFile (st : DriverGraph) (s : String)
    (k : DependencyKey) (d : Option String) : DriverGraph :=
  { st with
    nodes := st.nodes.map (fun n =>
      if swiftDepsKey n = s ∧ n.key = k then { n with swiftDeps := d }
      else n) }

/-- Modelled from the spec: `addToMap` (declared in the missing header) files
a freshly allocated node under its own swiftDeps bucket and key. -/
def addToMap (st : DriverGraph) (n : DriverNode) : DriverGraph :=
  { st with nodes := st.nodes ++ [n] }

/-- Modelled from the spec: `eraseNodeFromMap` removes the node filed at
(bucket, key) from the two-level map; `removeNode` then frees it. -/
def eraseNodeAt (st : DriverGraph) (s : String) (k : DependencyKey) :
    DriverGraph :=
  { st with
    nodes := st.nodes.filter (fun n =>
      decide (¬(swiftDepsKey n = s ∧ n.key = k))) }

/-- The recorded use keys of a def key in an edge index, empty when no entry
exists (list-level helper behind `lookupUses`). -/
def lookupUsesL (u : List (DependencyKey × List DependencyKey))
    (d : DependencyKey) : List DependencyKey :=
  ((u.find? (fun p => decide (p.1 = d))).map (fun p => p.2)).getD []

/-- `usesByDef[def]` as an operator[] read: the recorded use keys of a def
key, empty when no entry exists. -/
def lookupUses (st : DriverGraph) (d : DependencyKey) : List DependencyKey :=
  lookupUsesL st.usesByDef d

/-- Whether `usesByDef` has an entry (possibly empty) for a def key; the
source operator[] creates the entry on first touch. -/
def hasUsesEntry (st : DriverGraph) (d : DependencyKey) : Bool :=
  (st.usesByDef.find? (fun p => decide (p.1 = d))).isSome

/-- Create the (possibly empty) `usesByDef` entry for a def key, as the
operator[] access `usesByDef[def]` in `integrateUsesByDef` does. -/
def usesEnsure (u : List (DependencyKey × List DependencyKey))
    (d : DependencyKey) : List (DependencyKey × List DependencyKey) :=
  if (u.find? (fun p => decide (p.1 = d))).isSome then u else u ++ [(d, [])]

/-- Insert a use key into the entry of a def key (`uses.insert(use)`). -/
def usesAdd (u : List (DependencyKey × List DependencyKey))
    (d use : DependencyKey) : List (DependencyKey × List DependencyKey) :=
  u.map (fun p => if p.1 = d then (p.1, insertOnce p.2 use) else p)

/-- `DriverGraph::integrateUsesByDef` (source lines 259-268): touch the
`usesByDef` entry of the key of the integrand, then record the key of every
frontend node using the integrand, skipping a use equal to the def. -/
def integrateUsesByDef (st : DriverGraph) (g : FrontendGraph)
    (n : FrontendNode) : DriverGraph :=
  let d := n.key
  let st := { st with usesByDef := usesEnsure st.usesByDef d }
  (g.forEachUseOf n).foldl
    (fun st useNode =>
      if useNode.key = d then st
      else { st with usesByDef := usesAdd st.usesByDef d useNode.key })
    st

/-- Modelled from the spec: `DriverNode::integrateFingerprintFrom` is declared
in the missing header.  The spec constrains it by: the fingerprint of the node
in place is replaced by that of the integrand, and the key is reported changed
only if the fingerprint differs (or either is absent).  We model the report as
inequality of the two optional fingerprints, the minimal behaviour meeting the
only-if direction under which a present fingerprint never equals an absent
one; the return value is the changed report.  The state is returned unchanged
when the fingerprints already agree. -/
def integrateFingerprintFrom (st : DriverGraph) (s : String)
    (k : DependencyKey) (fp : Option String) : Bool × DriverGraph :=
  match findNode st s k with
  | none => (false, st)
  | some n =>
      if n.fingerprint = fp then (false, st)
      else (true, replaceFingerprint st s k fp)

/-- `DriverGraph::integrateByCreatingANewNode` (source lines 249-257): allocate
a driver node with the key and fingerprint of the integrand, set its
swiftDeps from the integrand, and file it in the map. -/
def integrateByCreatingANewNode (st : DriverGraph) (integrand : FrontendNode) :
    DriverGraph :=
  addToMap st ⟨integrand.key, integrand.fingerprint, integrand.swiftDeps⟩

/-- `DriverGraph::integrateFrontendDeclNode` (source lines 205-224): with a
node already in place, merge the fingerprint and report its change; otherwise
promote a preexisting expatriate node by relocating it to the swiftDeps of the
integrand and merging the fingerprint, reporting changed; otherwise create a
new node, reporting changed. -/
def integrateFrontendDeclNode (st : DriverGraph) (integrand : FrontendNode)
    (preexistingNodeInPlace preexistingExpat : Option DriverNode) :
    Bool × DriverGraph :=
  let k := integrand.key
  match preexistingNodeInPlace with
  | some _ => integrateFingerprintFrom st (frontendDepsKey integrand) k
      integrand.fingerprint
  | none =>
      match preexistingExpat with
      | some _ =>
          let st := moveNodeToDifferentFile st "" k integrand.swiftDeps
          let st := (integrateFingerprintFrom st (frontendDepsKey integrand) k
            integrand.fingerprint).2
          (true, st)
      | none => (true, integrateByCreatingANewNode st integrand)

/-- `DriverGraph::integrateFrontendExpatNode` (source lines 226-247): when
duplicates exist in other files or an expatriate already exists, do nothing
and report unchanged; when a node is passed in place, merge the fingerprint
into it and demote it to expatriate, reporting changed (a branch that is dead
under `integrate`, which never passes an in-place node for an expatriate
integrand); otherwise create a new node, reporting changed. -/
def integrateFrontendExpatNode (st : DriverGraph) (integrand : FrontendNode)
    (preexistingNodeInPlace preexistingExpat : Option DriverNode)
    (dupsExistInOtherFiles : Bool) : Bool × DriverGraph :=
  if dupsExistInOtherFiles || preexistingExpat.isSome then (false, st)
  else
    match preexistingNodeInPlace with
    | some n =>
        let s := swiftDepsKey n
        let st := (integrateFingerprintFrom st s integrand.key
          integrand.fingerprint).2
        let st := moveNodeToDifferentFile st s integrand.key none
        (true, st)
    | none => (true, integrateByCreatingANewNode st integrand)

/-- `DriverGraph::integrateFrontendNode` (source lines 180-203): compute the
preexisting expatriate (only when no node is in place), the count of nodes
carrying the key, and the duplicate flag, then dispatch on whether the
integrand has a swiftDeps. -/
def integrateFrontendNode (st : DriverGraph) (integrand : FrontendNode)
    (preexistingNodeInPlace : Option DriverNode) : Bool × DriverGraph :=
  let k := integrand.key
  let preexistingExpat :=
    if preexistingNodeInPlace.isSome then none else findNode st "" k
  let preexistingCount := countNodesWithKey st k
  let dupsExistInOtherFiles :=
    preexistingNodeInPlace.isNone && preexistingExpat.isNone &&
      decide (preexistingCount ≠ 0)
  if integrand.swiftDeps.isSome then
    integrateFrontendDeclNode st integrand preexistingNodeInPlace
      preexistingExpat
  else
    integrateFrontendExpatNode st integrand preexistingNodeInPlace
      preexistingExpat dupsExistInOtherFiles

/-- The accumulator threaded through the per-node loop of
`DriverGraph::integrate`: the evolving graph, the keys of nodes of the merged
unit not yet revisited (`disappearedNodes`, tracked by key since the map is
keyed that way), and the keys reported changed so far (`changedNodes`). -/
structure IntegrationAcc where
  st : DriverGraph
  disappeared : List DependencyKey
  changed : List DependencyKey
deriving DecidableEq

/-- The body of the `forEachNode` loop of `DriverGraph::integrate` (source
lines 147-167): record use edges, look the integrand up in place (only when it
has a swiftDeps), mark the key revisited, integrate the node, record its key
if changed, and track external dependencies. -/
def integrateNode (g : FrontendGraph) (acc : IntegrationAcc)
    (integrand : FrontendNode) : IntegrationAcc :=
  let st := integrateUsesByDef acc.st g integrand
  let k := integrand.key
  let preexistingNodeInPlace :=
    match integrand.swiftDeps with
    | some sd => findNode st sd k
    | none => none
  let disappeared :=
    if preexistingNodeInPlace.isSome then
      acc.disappeared.filter (fun k2 => decide (k2 ≠ k))
    else acc.disappeared
  let r := integrateFrontendNode st integrand preexistingNodeInPlace
  let changed := if r.1 then insertOnce acc.changed k else acc.changed
  let st := r.2
  let st :=
    if integrand.key.kind = NodeKind.externalDepend then
      { st with
        externalDependencies :=
          insertOnce st.externalDependencies integrand.key.name }
    else st
  ⟨st, disappeared, changed⟩

/-- `DriverGraph::integrate` (source lines 139-178), exposing the changed-key
set: seed the disappeared set with the keys of the nodes of the merged unit,
run the per-node loop, then report every still-disappeared key as changed and
remove its node from the map. -/
def integrateChanged (g : FrontendGraph) (st : DriverGraph) :
    List DependencyKey × DriverGraph :=
  let swiftDeps := g.swiftDeps
  let disappeared0 :=
    (st.nodes.filter (fun n => decide (swiftDepsKey n = swiftDeps))).map
      (fun n => n.key)
  let acc := g.nodes.foldl (integrateNode g) ⟨st, disappeared0, []⟩
  acc.disappeared.foldl
    (fun (r : List DependencyKey × DriverGraph) k =>
      (insertOnce r.1 k, eraseNodeAt r.2 swiftDeps k))
    (acc.changed, acc.st)

/-- `DriverGraph::integrate` as the source returns it: `UpToDate` exactly when
no key changed, else `AffectsDownstream`. -/
def integrate (g : FrontendGraph) (st : DriverGraph) :
    LoadResult × DriverGraph :=
  let r := integrateChanged g st
  (if r.1.isEmpty then LoadResult.upToDate else LoadResult.affectsDownstream,
    r.2)

/-- `DriverGraph::addIndependentNode` (source lines 100-104): record the
correspondence between the job (identified by its swiftDeps) and its
swiftDeps. -/
def addIndependentNode (st : DriverGraph) (job : String) : DriverGraph :=
  { st with jobsBySwiftDeps := insertOnce st.jobsBySwiftDeps job }

/-- `DriverGraph::loadFromBuffer` (source lines 59-67): the parse result of
the buffer is passed in, `FrontendGraph::loadFromBuffer` itself being an
external collaborator; on a failed parse return `HadError` with the graph
untouched, otherwise record the job correspondence and integrate. -/
def loadFromBuffer (job : String) (parsed : Option FrontendGraph)
    (st : DriverGraph) : LoadResult × DriverGraph :=
  match parsed with
  | none => (LoadResult.hadError, st)
  | some fg => integrate fg (addIndependentNode st job)

/-- Fold a sequence of snapshot merges over a starting graph, keeping only the
final state (the session-long accumulation of `integrate` calls). -/
def mergeAll (gs : List FrontendGraph) (st : DriverGraph) : DriverGraph :=
  gs.foldl (fun st g => (integrate g st).2) st

/-- `DriverGraph::forEachMatchingNode` (source lines 294-298): every node in
the map carrying the given key, whatever its bucket. -/
def forEachMatchingNode (st : DriverGraph) (k : DependencyKey) :
    List DriverNode :=
  st.nodes.filter (fun n => decide (n.key = k))

/-- `DriverGraph::forEachUseOf` (source lines 279-286): nothing when
`usesByDef` has no entry for the key of the def node; otherwise every node
matching each recorded use key. -/
def forEachUseOfDriver (st : DriverGraph) (defNode : DriverNode) :
    List DriverNode :=
  match st.usesByDef.find? (fun p => decide (p.1 = defNode.key)) with
  | none => []
  | some p => p.2.foldr (fun uk r => forEachMatchingNode st uk ++ r) []

/-- `DriverGraph::markIntransitive` (source lines 96-98): flag the job as
cascading, returning whether it was newly inserted. -/
def markIntransitive (st : DriverGraph) (job : String) : Bool × DriverGraph :=
  (decide (job ∉ st.cascadingJobs),
    { st with cascadingJobs := insertOnce st.cascadingJobs job })

/-- `DriverGraph::isMarked` (source lines 69-71): whether the swiftDeps of the
job is flagged cascading. -/
def isMarked (st : DriverGraph) (job : String) : Bool :=
  decide (job ∈ st.cascadingJobs)

/-- `DriverGraph::checkTransitiveClosureForCascading` (source lines 321-338),
written with explicit fuel in place of unbounded recursion: skip a node
already visited, otherwise record it visited, and for every use of it flag the
swiftDeps of the visited def node cascading when the key of the use node is of
interface kind (`rememberThatJobCascades(swiftDeps)` with `swiftDeps` read off
the def node), then recurse into the use node.  The accumulator pairs the
visited node set with the cascading job set.  The source asserts that every
node reached has a swiftDeps; the model reads it with an empty-string default,
which agrees whenever the assertion holds.  A fuel of one more than the node
count is always sufficient, since every level below the first inserts a fresh
node of the map. -/
def checkTransitiveClosureForCascading (st : DriverGraph) :
    Nat → List DriverNode × List String → DriverNode →
      List DriverNode × List String
  | 0, acc, _ => acc
  | fuel + 1, acc, defNode =>
      if defNode ∈ acc.1 then acc
      else
        (forEachUseOfDriver st defNode).foldl
          (fun acc u =>
            let acc :=
              if u.key.isInterface then
                (acc.1, insertOnce acc.2 (swiftDepsKey defNode))
              else acc
            checkTransitiveClosureForCascading st fuel acc u)
          (defNode :: acc.1, acc.2)

/-- `DriverGraph::markTransitive` (source lines 73-94): traverse from every
node of the unit of the job, then copy back the visited jobs, skipping nodes
with no swiftDeps and deduplicating by swiftDeps, tracking each copied job
(`ensureJobIsTracked`).  Returns the visited job list together with the graph
whose cascading set the traversal updated. -/
def markTransitive (st : DriverGraph) (job : String) :
    List String × DriverGraph :=
  let starts := st.nodes.filter (fun n => decide (swiftDepsKey n = job))
  let fuel := st.nodes.length + 1
  let r := starts.foldl
    (fun acc n => checkTransitiveClosureForCascading st fuel acc n)
    ([], st.cascadingJobs)
  let copy := r.1.foldl
    (fun (acc : List String × DriverGraph) n =>
      match n.swiftDeps with
      | none => acc
      | some sd =>
          if sd ∈ acc.1 then acc
          else (acc.1 ++ [sd], addIndependentNode acc.2 sd))
    ([], { st with cascadingJobs := r.2 })
  copy

/-- How many expatriate nodes (no owning swiftDeps) carry the given key. -/
def expatCount (st : DriverGraph) (k : DependencyKey) : Nat :=
  (st.nodes.filter (fun n => decide (n.key = k ∧ n.swiftDeps = none))).length

/-- How many resident nodes (owned by some unit) carry the given key. -/
def residentCount (st : DriverGraph) (k : DependencyKey) : Nat :=
  (st.nodes.filter (fun n => decide (n.key = k ∧ n.swiftDeps ≠ none))).length

/-- Invariants A and B of the spec: per key at most one expatriate node, and
an expatriate node for a key excludes resident nodes for it anywhere. -/
def InvariantsAB (st : DriverGraph) : Prop :=
  ∀ k : DependencyKey, expatCount st k ≤ 1 ∧
    (expatCount st k = 0 ∨ residentCount st k = 0)

/-- The operation changed at most the node store. -/
def OnlyNodesDiffer (st st' : DriverGraph) : Prop :=
  st'.usesByDef = st.usesByDef ∧
  st'.externalDependencies = st.externalDependencies ∧
  st'.cascadingJobs = st.cascadingJobs ∧
  st'.jobsBySwiftDeps = st.jobsBySwiftDeps

/-- The operation changed at most the `usesByDef` index. -/
def OnlyUsesDiffer (st st' : DriverGraph) : Prop :=
  st'.nodes = st.nodes ∧
  st'.externalDependencies = st.externalDependencies ∧
  st'.cascadingJobs = st.cascadingJobs ∧
  st'.jobsBySwiftDeps = st.jobsBySwiftDeps

/-- No key lists itself among its own recorded uses. -/
def SelfFree (st : DriverGraph) : Prop :=
  ∀ d : DependencyKey, d ∉ lookupUses st d

/-- Some node occupies the given (bucket, key) slot of the node map. -/
def HasNodeAt (st : DriverGraph) (s : String) (k : DependencyKey) : Prop :=
  ∃ n ∈ st.nodes, swiftDepsKey n = s ∧ n.key = k

/-- Some node of the map carries the given key, in whatever bucket. -/
def KeyExists (st : DriverGraph) (k : DependencyKey) : Prop :=
  ∃ n ∈ st.nodes, n.key = k

instance (st : DriverGraph) (s : String) (k : DependencyKey) :
    Decidable (HasNodeAt st s k) := by
  unfold HasNodeAt
  infer_instance

instance (st : DriverGraph) (k : DependencyKey) :
    Decidable (KeyExists st k) := by
  unfold KeyExists
  infer_instance

/-! Concrete data used by counterexamples and witnesses. -/

/-- A plain implementation-aspect key for concrete examples. -/
def kPlain : DependencyKey :=
  ⟨NodeKind.topLevel, false, "", "k"⟩

/-- An interface-aspect key for concrete examples. -/
def kIntf : DependencyKey :=
  ⟨NodeKind.topLevel, true, "", "j"⟩

/-- A driver graph holding a single resident node of unit a.swiftdeps. -/
def oneNodeGraph : DriverGraph :=
  ⟨[⟨kPlain, none, some "a.swiftdeps"⟩], [], [], [], []⟩

/-- A snapshot of unit a.swiftdeps declaring `kPlain` without fingerprint. -/
def declSnapshot : FrontendGraph :=
  ⟨"a.swiftdeps", [⟨kPlain, none, some "a.swiftdeps"⟩], []⟩

/-- A snapshot of unit a.swiftdeps holding only an expatriate use of
`kPlain`. -/
def expatSnapshot : FrontendGraph :=
  ⟨"a.swiftdeps", [⟨kPlain, none, none⟩], []⟩

/-- A snapshot of unit a.swiftdeps with no nodes at all. -/
def emptySnapshot : FrontendGraph :=
  ⟨"a.swiftdeps", [], []⟩

/-- The resident def node of unit a.swiftdeps in `twoUnitEdgeGraph`. -/
def defNodeA : DriverNode :=
  ⟨kPlain, none, some "a.swiftdeps"⟩

/-- The resident use node of unit b.swiftdeps in `twoUnitEdgeGraph`, carrying
an interface key. -/
def useNodeB : DriverNode :=
  ⟨kIntf, none, some "b.swiftdeps"⟩

/-- A driver graph where the def node of unit a.swiftdeps is used, through an
interface key, by a node of unit b.swiftdeps. -/
def twoUnitEdgeGraph : DriverGraph :=
  ⟨[defNodeA, useNodeB], [(kPlain, [kIntf])], [], [], []⟩

/-- A driver graph holding a single expatriate node for `kPlain`. -/
def oneExpatGraph : DriverGraph :=
  ⟨[⟨kPlain, none, none⟩], [], [], [], []⟩

/-- A snapshot of unit w.swiftdeps declaring `kPlain` with a fingerprint. -/
def freshDeclSnapshot : FrontendGraph :=
  ⟨"w.swiftdeps", [⟨kPlain, some "f1", some "w.swiftdeps"⟩], []⟩

/-- A frontend node redeclaring `kPlain` in a.swiftdeps with a fresh
fingerprint. -/
def reDeclFp2 : FrontendNode :=
  ⟨kPlain, some "f2", some "a.swiftdeps"⟩

/-- An integration accumulator whose graph holds one expatriate for
`kPlain`. -/
def promoteAcc : IntegrationAcc :=
  ⟨oneExpatGraph, [], []⟩

/-- A frontend node declaring `kPlain` in u2.swiftdeps with a fingerprint. -/
def promoteIntegrand : FrontendNode :=
  ⟨kPlain, some "f1", some "u2.swiftdeps"⟩

/-! Basic facts about the set-as-list insert. -/

theorem mem_insertOnce {α : Type} [DecidableEq α] {l : List α} {x y : α} :
    y ∈ insertOnce l x ↔ y ∈ l ∨ y = x := by
  unfold insertOnce
  split
  · rename_i h
    constructor
    · exact Or.inl
    · rintro (h1 | rfl)
      · exact h1
      · exact h
  · simp [List.mem_append]

theorem insertOnce_of_mem {α : Type} [DecidableEq α] {l : List α} {x : α}
    (h : x ∈ l) : insertOnce l x = l := by
  simp [insertOnce, h]

theorem self_mem_insertOnce {α : Type} [DecidableEq α] {l : List α} {x : α} :
    x ∈ insertOnce l x :=
  mem_insertOnce.2 (Or.inr rfl)

/-! Which record fields each operation can touch. -/

theorem onlyNodesDiffer_refl (st : DriverGraph) : OnlyNodesDiffer st st :=
  ⟨rfl, rfl, rfl, rfl⟩

theorem onlyNodesDiffer_trans {s1 s2 s3 : DriverGraph}
    (h1 : OnlyNodesDiffer s1 s2) (h2 : OnlyNodesDiffer s2 s3) :
    OnlyNodesDiffer s1 s3 :=
  ⟨h2.1.trans h1.1, h2.2.1.trans h1.2.1, h2.2.2.1.trans h1.2.2.1,
    h2.2.2.2.trans h1.2.2.2⟩

theorem onlyNodesDiffer_replaceFingerprint (st : DriverGraph) (s : String)
    (k : DependencyKey) (fp : Option String) :
    OnlyNodesDiffer st (replaceFingerprint st s k fp) :=
  ⟨rfl, rfl, rfl, rfl⟩

theorem onlyNodesDiffer_move (st : DriverGraph) (s : String)
    (k : DependencyKey) (d : Option String) :
    OnlyNodesDiffer st (moveNodeToDifferentFile st s k d) :=
  ⟨rfl, rfl, rfl, rfl⟩

theorem onlyNodesDiffer_addToMap (st : DriverGraph) (n : DriverNode) :
    OnlyNodesDiffer st (addToMap st n) :=
  ⟨rfl, rfl, rfl, rfl⟩

theorem onlyNodesDiffer_eraseNodeAt (st : DriverGraph) (s : String)
    (k : DependencyKey) : OnlyNodesDiffer st (eraseNodeAt st s k) :=
  ⟨rfl, rfl, rfl, rfl⟩

theorem onlyNodesDiffer_integrateFingerprintFrom (st : DriverGraph)
    (s : String) (k : DependencyKey) (fp : Option String) :
    OnlyNodesDiffer st (integrateFingerprintFrom st s k fp).2 := by
  unfold integrateFingerprintFrom
  cases findNode st s k with
  | none => exact onlyNodesDiffer_refl st
  | some n =>
      by_cases h : n.fingerprint = fp
      · simp only [h, if_pos rfl]
        exact onlyNodesDiffer_refl st
      · simp only [if_neg h]
        exact onlyNodesDiffer_replaceFingerprint st s k fp

theorem onlyNodesDiffer_integrateFrontendDeclNode (st : DriverGraph)
    (i : FrontendNode) (p e : Option DriverNode) :
    OnlyNodesDiffer st (integrateFrontendDeclNode st i p e).2 := by
  unfold integrateFrontendDeclNode
  cases p with
  | some n => exact onlyNodesDiffer_integrateFingerprintFrom _ _ _ _
  | none =>
      cases e with
      | some n =>
          exact onlyNodesDiffer_trans (onlyNodesDiffer_move _ _ _ _)
            (onlyNodesDiffer_integrateFingerprintFrom _ _ _ _)
      | none => exact onlyNodesDiffer_addToMap _ _

theorem onlyNodesDiffer_integrateFrontendExpatNode (st : DriverGraph)
    (i : FrontendNode) (p e : Option DriverNode) (dups : Bool) :
    OnlyNodesDiffer st (integrateFrontendExpatNode st i p e dups).2 := by
  unfold integrateFrontendExpatNode
  split
  · exact onlyNodesDiffer_refl st
  · cases p with
    | some n =>
        exact onlyNodesDiffer_trans
          (onlyNodesDiffer_integrateFingerprintFrom _ _ _ _)
          (onlyNodesDiffer_move _ _ _ _)
    | none => exact onlyNodesDiffer_addToMap _ _

theorem onlyNodesDiffer_integrateFrontendNode (st : DriverGraph)
    (i : FrontendNode) (p : Option DriverNode) :
    OnlyNodesDiffer st (integrateFrontendNode st i p).2 := by
  unfold integrateFrontendNode
  dsimp only
  split
  · exact onlyNodesDiffer_integrateFrontendDeclNode _ _ _ _
  · exact onlyNodesDiffer_integrateFrontendExpatNode _ _ _ _ _

theorem onlyUsesDiffer_integrateUsesByDef (st : DriverGraph)
    (g : FrontendGraph) (n : FrontendNode) :
    OnlyUsesDiffer st (integrateUsesByDef st g n) := by
  unfold integrateUsesByDef
  have aux : ∀ (l : List FrontendNode) (st2 : DriverGraph),
      OnlyUsesDiffer st st2 →
      OnlyUsesDiffer st (l.foldl
        (fun st3 useNode =>
          if useNode.key = n.key then st3
          else { st3 with usesByDef := usesAdd st3.usesByDef n.key useNode.key })
        st2) := by
    intro l
    induction l with
    | nil => intro st2 h; exact h
    | cons u t ih =>
        intro st2 h
        simp only [List.foldl_cons]
        apply ih
        by_cases hu : u.key = n.key
        · simp only [if_pos hu]; exact h
        · simp only [if_neg hu]
          exact ⟨h.1, h.2.1, h.2.2.1, h.2.2.2⟩
  exact aux _ _ ⟨rfl, rfl, rfl, rfl⟩

/-! The edge index under its two mutating operations. -/

theorem lookupUsesL_usesEnsure
    (u : List (DependencyKey × List DependencyKey)) (d2 d : DependencyKey) :
    lookupUsesL (usesEnsure u d2) d = lookupUsesL u d := by
  unfold usesEnsure
  by_cases hs : (u.find? (fun p => decide (p.1 = d2))).isSome
  · simp [hs]
  · simp only [hs, if_false, Bool.false_eq_true]
    unfold lookupUsesL
    rw [List.find?_append]
    by_cases hd : d2 = d
    · subst hd
      have hnone : u.find? (fun p => decide (p.1 = d2)) = none :=
        Option.not_isSome_iff_eq_none.1 hs
      rw [hnone]
      simp
    · have : List.find? (fun p => decide (p.1 = d)) [(d2, ([] : List DependencyKey))] = none := by
        simp [List.find?, hd]
      rw [this]
      simp

theorem find?_usesAdd (u : List (DependencyKey × List DependencyKey))
    (d2 use d : DependencyKey) :
    (usesAdd u d2 use).find? (fun p => decide (p.1 = d)) =
      (u.find? (fun p => decide (p.1 = d))).map
        (fun p => if p.1 = d2 then (p.1, insertOnce p.2 use) else p) := by
  unfold usesAdd
  rw [List.find?_map]
  have hp : ((fun p => decide (p.1 = d)) ∘
      fun p => if p.1 = d2 then (p.1, insertOnce p.2 use) else p) =
      (fun p => decide (p.1 = d)) := by
    funext p
    by_cases h : p.1 = d2 <;> simp [Function.comp, h]
  rw [hp]

theorem lookupUsesL_usesAdd_ne
    {u : List (DependencyKey × List DependencyKey)} {d2 use d : DependencyKey}
    (h : d ≠ d2) :
    lookupUsesL (usesAdd u d2 use) d = lookupUsesL u d := by
  unfold lookupUsesL
  rw [find?_usesAdd]
  cases hf : u.find? (fun p => decide (p.1 = d)) with
  | none => rfl
  | some p =>
      have hp : p.1 = d := by
        have := List.find?_some hf
        simpa using this
      have : ¬p.1 = d2 := by rw [hp]; exact h
      simp [this]

theorem mem_lookupUsesL_usesAdd
    {u : List (DependencyKey × List DependencyKey)} {d2 use d x : DependencyKey}
    (h : x ∈ lookupUsesL (usesAdd u d2 use) d) :
    x ∈ lookupUsesL u d ∨ x = use := by
  unfold lookupUsesL at h ⊢
  rw [find?_usesAdd] at h
  cases hf : u.find? (fun p => decide (p.1 = d)) with
  | none => rw [hf] at h; simp at h
  | some p =>
      rw [hf] at h
      replace h : x ∈ (if p.1 = d2 then (p.1, insertOnce p.2 use) else p).2 := h
      by_cases hp : p.1 = d2
      · rw [if_pos hp] at h
        rcases mem_insertOnce.1 h with h1 | h1
        · exact Or.inl (by simp [h1])
        · exact Or.inr h1
      · rw [if_neg hp] at h
        exact Or.inl (by simp [h])

/-! Claim C10 machinery: no def key ever records itself as a use. -/

theorem selfFree_of_usesEq {st st' : DriverGraph}
    (h : st'.usesByDef = st.usesByDef) (hs : SelfFree st) : SelfFree st' := by
  intro d
  unfold lookupUses
  rw [h]
  exact hs d

theorem selfFree_integrateUsesByDef {st : DriverGraph} (g : FrontendGraph)
    (n : FrontendNode) (h : SelfFree st) :
    SelfFree (integrateUsesByDef st g n) := by
  unfold integrateUsesByDef
  have aux : ∀ (l : List FrontendNode) (st2 : DriverGraph), SelfFree st2 →
      SelfFree (l.foldl
        (fun st3 useNode =>
          if useNode.key = n.key then st3
          else { st3 with usesByDef := usesAdd st3.usesByDef n.key useNode.key })
        st2) := by
    intro l
    induction l with
    | nil => intro st2 h2; exact h2
    | cons u t ih =>
        intro st2 h2
        simp only [List.foldl_cons]
        apply ih
        by_cases hu : u.key = n.key
        · simp only [if_pos hu]; exact h2
        · simp only [if_neg hu]
          intro d hd
          unfold lookupUses at hd
          simp only at hd
          by_cases hdn : d = n.key
          · rcases mem_lookupUsesL_usesAdd hd with h1 | h1
            · exact h2 d h1
            · exact hu (h1 ▸ hdn)
          · rw [lookupUsesL_usesAdd_ne hdn] at hd
            exact h2 d hd
  apply aux
  intro d
  unfold lookupUses
  simp only
  rw [lookupUsesL_usesEnsure]
  exact h d

theorem selfFree_integrateNode {g : FrontendGraph} {acc : IntegrationAcc}
    (i : FrontendNode) (h : SelfFree acc.st) :
    SelfFree (integrateNode g acc i).st := by
  unfold integrateNode
  dsimp only
  have h1 : SelfFree (integrateUsesByDef acc.st g i) :=
    selfFree_integrateUsesByDef g i h
  have h2 : ∀ p : Option DriverNode,
      SelfFree (integrateFrontendNode (integrateUsesByDef acc.st g i) i p).2 :=
    fun p =>
      selfFree_of_usesEq (onlyNodesDiffer_integrateFrontendNode _ _ p).1 h1
  split
  · exact selfFree_of_usesEq rfl (h2 _)
  · exact h2 _

theorem selfFree_integrateChanged {st : DriverGraph} (g : FrontendGraph)
    (h : SelfFree st) : SelfFree (integrateChanged g st).2 := by
  unfold integrateChanged
  simp only
  have loop : ∀ (l : List FrontendNode) (acc : IntegrationAcc),
      SelfFree acc.st → SelfFree (l.foldl (integrateNode g) acc).st := by
    intro l
    induction l with
    | nil => intro acc h2; exact h2
    | cons i t ih =>
        intro acc h2
        simp only [List.foldl_cons]
        exact ih _ (selfFree_integrateNode i h2)
  have phase : ∀ (ks : List DependencyKey)
      (r : List DependencyKey × DriverGraph), SelfFree r.2 →
      SelfFree ((ks.foldl
        (fun (r : List DependencyKey × DriverGraph) k =>
          (insertOnce r.1 k, eraseNodeAt r.2 g.swiftDeps k)) r)).2 := by
    intro ks
    induction ks with
    | nil => intro r h2; exact h2
    | cons k t ih =>
        intro r h2
        simp only [List.foldl_cons]
        exact ih _ (selfFree_of_usesEq (onlyNodesDiffer_eraseNodeAt _ _ _).1 h2)
  exact phase _ _ (loop _ _ h)

theorem selfFree_mergeAll (gs : List FrontendGraph) {st : DriverGraph}
    (h : SelfFree st) : SelfFree (mergeAll gs st) := by
  induction gs generalizing st with
  | nil => exact h
  | cons g t ih =>
      unfold mergeAll
      simp only [List.foldl_cons]
      exact ih (selfFree_integrateChanged g h)

/-- C10: after any sequence of merges starting from the fresh graph, the use
set recorded under a def key never contains that key itself, because
`integrateUsesByDef` filters out edges whose use key equals the def key. -/
theorem usesByDef_never_contains_self (gs : List FrontendGraph)
    (d : DependencyKey) : d ∉ lookupUses (mergeAll gs emptyGraph) d := by
  refine selfFree_mergeAll gs ?_ d
  intro d2 hd
  simp [lookupUses, lookupUsesL, emptyGraph] at hd

/-! Claim C5 machinery: counting expatriate and resident nodes per key. -/

theorem length_filter_mono {α : Type} {p q : α → Bool}
    (h : ∀ a, q a = true → p a = true) (l : List α) :
    (l.filter q).length ≤ (l.filter p).length := by
  induction l with
  | nil => simp
  | cons a t ih =>
      simp only [List.filter_cons]
      by_cases hq : q a = true
      · rw [if_pos hq, if_pos (h a hq)]
        simpa using Nat.succ_le_succ ih
      · rw [if_neg hq]
        split
        · exact le_trans ih (Nat.le_succ _)
        · exact ih

theorem count_map_eq {p : DriverNode → Bool} {f : DriverNode → DriverNode}
    (h : ∀ n, p (f n) = p n) (l : List DriverNode) :
    ((l.map f).filter p).length = (l.filter p).length := by
  have he : List.filter (p ∘ f) l = List.filter p l :=
    List.filter_congr (fun a _ => h a)
  rw [List.filter_map, List.length_map, he]

theorem expatCount_replaceFingerprint (st : DriverGraph) (s : String)
    (k k2 : DependencyKey) (fp : Option String) :
    expatCount (replaceFingerprint st s k fp) k2 = expatCount st k2 := by
  unfold expatCount replaceFingerprint
  apply count_map_eq
  intro n
  by_cases h : swiftDepsKey n = s ∧ n.key = k <;> simp [h]

theorem residentCount_replaceFingerprint (st : DriverGraph) (s : String)
    (k k2 : DependencyKey) (fp : Option String) :
    residentCount (replaceFingerprint st s k fp) k2 = residentCount st k2 := by
  unfold residentCount replaceFingerprint
  apply count_map_eq
  intro n
  by_cases h : swiftDepsKey n = s ∧ n.key = k <;> simp [h]

theorem expatCount_integrateFingerprintFrom (st : DriverGraph) (s : String)
    (k k2 : DependencyKey) (fp : Option String) :
    expatCount (integrateFingerprintFrom st s k fp).2 k2 = expatCount st k2 := by
  unfold integrateFingerprintFrom
  cases findNode st s k with
  | none => rfl
  | some n =>
      by_cases hfp : n.fingerprint = fp
      · simp only [if_pos hfp]
      · simp only [if_neg hfp]
        exact expatCount_replaceFingerprint st s k k2 fp

theorem residentCount_integrateFingerprintFrom (st : DriverGraph) (s : String)
    (k k2 : DependencyKey) (fp : Option String) :
    residentCount (integrateFingerprintFrom st s k fp).2 k2 =
      residentCount st k2 := by
  unfold integrateFingerprintFrom
  cases findNode st s k with
  | none => rfl
  | some n =>
      by_cases hfp : n.fingerprint = fp
      · simp only [if_pos hfp]
      · simp only [if_neg hfp]
        exact residentCount_replaceFingerprint st s k k2 fp

theorem expatCount_move_ne {st : DriverGraph} {s : String}
    {k k2 : DependencyKey} {d : Option String} (h : k2 ≠ k) :
    expatCount (moveNodeToDifferentFile st s k d) k2 = expatCount st k2 := by
  unfold expatCount moveNodeToDifferentFile
  apply count_map_eq
  intro n
  by_cases hc : swiftDepsKey n = s ∧ n.key = k
  · simp [hc, Ne.symm h]
  · simp [hc]

theorem residentCount_move_ne {st : DriverGraph} {s : String}
    {k k2 : DependencyKey} {d : Option String} (h : k2 ≠ k) :
    residentCount (moveNodeToDifferentFile st s k d) k2 =
      residentCount st k2 := by
  unfold residentCount moveNodeToDifferentFile
  apply count_map_eq
  intro n
  by_cases hc : swiftDepsKey n = s ∧ n.key = k
  · simp [hc, Ne.symm h]
  · simp [hc]

theorem expatCount_move_blank_to_some (st : DriverGraph) (k : DependencyKey)
    (s2 : String) :
    expatCount (moveNodeToDifferentFile st "" k (some s2)) k = 0 := by
  unfold expatCount moveNodeToDifferentFile
  rw [List.length_eq_zero, List.filter_eq_nil_iff]
  intro a ha
  rcases List.mem_map.1 ha with ⟨n, hn, rfl⟩
  by_cases hc : swiftDepsKey n = "" ∧ n.key = k
  · simp [hc]
  · rw [if_neg hc]
    simp only [decide_eq_true_eq, not_and]
    intro hk hsd
    exact absurd ⟨by simp [swiftDepsKey, hsd], hk⟩ hc

theorem expatCount_addToMap (st : DriverGraph) (n : DriverNode)
    (k : DependencyKey) :
    expatCount (addToMap st n) k =
      expatCount st k + (if n.key = k ∧ n.swiftDeps = none then 1 else 0) := by
  unfold expatCount addToMap
  rw [List.filter_append, List.length_append]
  congr 1
  by_cases h : n.key = k ∧ n.swiftDeps = none <;> simp [h]

theorem residentCount_addToMap (st : DriverGraph) (n : DriverNode)
    (k : DependencyKey) :
    residentCount (addToMap st n) k =
      residentCount st k + (if n.key = k ∧ n.swiftDeps ≠ none then 1 else 0) := by
  unfold residentCount addToMap
  rw [List.filter_append, List.length_append]
  congr 1
  by_cases h : n.key = k ∧ n.swiftDeps ≠ none <;> simp [h]

theorem expatCount_eraseNodeAt_le (st : DriverGraph) (s : String)
    (k k2 : DependencyKey) :
    expatCount (eraseNodeAt st s k) k2 ≤ expatCount st k2 := by
  unfold expatCount eraseNodeAt
  rw [List.filter_filter]
  apply length_filter_mono
  intro a ha
  simp only [Bool.and_eq_true] at ha
  exact ha.1

theorem residentCount_eraseNodeAt_le (st : DriverGraph) (s : String)
    (k k2 : DependencyKey) :
    residentCount (eraseNodeAt st s k) k2 ≤ residentCount st k2 := by
  unfold residentCount eraseNodeAt
  rw [List.filter_filter]
  apply length_filter_mono
  intro a ha
  simp only [Bool.and_eq_true] at ha
  exact ha.1

theorem expatCount_zero_of_no_expat {st : DriverGraph} {k : DependencyKey}
    (h : findNode st "" k = none) : expatCount st k = 0 := by
  unfold findNode at h
  rw [List.find?_eq_none] at h
  unfold expatCount
  rw [List.length_eq_zero, List.filter_eq_nil_iff]
  intro n hn
  simp only [decide_eq_true_eq, not_and]
  intro hk hsd
  exact absurd (by simp [swiftDepsKey, hsd, hk] :
    decide (swiftDepsKey n = "" ∧ n.key = k) = true) (h n hn)

theorem counts_zero_of_countKey_zero {st : DriverGraph} {k : DependencyKey}
    (h : countNodesWithKey st k = 0) :
    expatCount st k = 0 ∧ residentCount st k = 0 := by
  unfold countNodesWithKey at h
  rw [List.length_eq_zero, List.filter_eq_nil_iff] at h
  constructor
  · unfold expatCount
    rw [List.length_eq_zero, List.filter_eq_nil_iff]
    intro n hn
    simp only [decide_eq_true_eq, not_and]
    intro hk _
    exact absurd (by simp [hk] : decide (n.key = k) = true) (h n hn)
  · unfold residentCount
    rw [List.length_eq_zero, List.filter_eq_nil_iff]
    intro n hn
    simp only [decide_eq_true_eq, not_and]
    intro hk _
    exact absurd (by simp [hk] : decide (n.key = k) = true) (h n hn)

theorem invAB_of_nodesEq {st st' : DriverGraph} (h : st'.nodes = st.nodes)
    (hi : InvariantsAB st) : InvariantsAB st' := by
  intro k
  have he : expatCount st' k = expatCount st k := by
    unfold expatCount; rw [h]
  have hr : residentCount st' k = residentCount st k := by
    unfold residentCount; rw [h]
  rw [he, hr]
  exact hi k

theorem invAB_integrateFingerprintFrom {st : DriverGraph} (s : String)
    (k : DependencyKey) (fp : Option String) (h : InvariantsAB st) :
    InvariantsAB (integrateFingerprintFrom st s k fp).2 := by
  intro k2
  rw [expatCount_integrateFingerprintFrom, residentCount_integrateFingerprintFrom]
  exact h k2

theorem invAB_integrateFrontendDeclNode {st : DriverGraph} {i : FrontendNode}
    {sd : String} (hsd : i.swiftDeps = some sd) (h : InvariantsAB st) :
    InvariantsAB (integrateFrontendDeclNode st i (findNode st sd i.key)
      (if (findNode st sd i.key).isSome then none
       else findNode st "" i.key)).2 := by
  unfold integrateFrontendDeclNode
  cases hp : findNode st sd i.key with
  | some n =>
      simp only
      exact invAB_integrateFingerprintFrom _ _ _ h
  | none =>
      simp only [Option.isSome_none, Bool.false_eq_true, if_false]
      cases he : findNode st "" i.key with
      | some e =>
          simp only
          apply invAB_integrateFingerprintFrom
          intro k2
          by_cases hk2 : k2 = i.key
          · subst hk2
            rw [hsd]
            rw [expatCount_move_blank_to_some]
            exact ⟨Nat.zero_le 1, Or.inl rfl⟩
          · rw [expatCount_move_ne hk2, residentCount_move_ne hk2]
            exact h k2
      | none =>
          simp only
          intro k2
          unfold integrateByCreatingANewNode
          rw [expatCount_addToMap, residentCount_addToMap]
          simp only [hsd]
          by_cases hk2 : i.key = k2
          · subst hk2
            have he0 : expatCount st i.key = 0 :=
              expatCount_zero_of_no_expat he
            simp only [he0]
            constructor
            · simp
            · left
              simp
          · simp only [hk2, false_and, if_false]
            simpa using h k2

theorem invAB_integrateFrontendNode {st : DriverGraph} (i : FrontendNode)
    (p : Option DriverNode)
    (hp : p = match i.swiftDeps with
      | some sd => findNode st sd i.key
      | none => none)
    (h : InvariantsAB st) : InvariantsAB (integrateFrontendNode st i p).2 := by
  unfold integrateFrontendNode
  dsimp only
  cases hs : i.swiftDeps with
  | some sd =>
      rw [hs] at hp
      simp only [hs, Option.isSome_some, if_true]
      rw [hp]
      exact invAB_integrateFrontendDeclNode hs h
  | none =>
      rw [hs] at hp
      simp only [hp, hs, Option.isSome_none, Bool.false_eq_true, if_false]
      unfold integrateFrontendExpatNode
      cases he : findNode st "" i.key with
      | some e0 =>
          simp only [Option.isSome_some, Bool.or_true, if_true]
          exact h
      | none =>
          by_cases hc : countNodesWithKey st i.key = 0
          · have hd : (decide (countNodesWithKey st i.key ≠ 0)) = false := by
              simp [hc]
            simp only [Option.isSome_none, Option.isNone_none, hd,
              Bool.and_false, Bool.or_false, Bool.false_eq_true, if_false]
            intro k2
            unfold integrateByCreatingANewNode
            rw [expatCount_addToMap, residentCount_addToMap]
            obtain ⟨he0, hr0⟩ := counts_zero_of_countKey_zero hc
            by_cases hk2 : i.key = k2
            · subst hk2
              simp only [he0, hr0, hs]
              constructor
              · simp
              · right
                simp
            · simp only [hk2, false_and, if_false]
              simpa using h k2
          · have hd : (decide (countNodesWithKey st i.key ≠ 0)) = true := by
              simp [hc]
            simp only [Option.isSome_none, Option.isNone_none, hd,
              Bool.and_true, Bool.true_and, Bool.or_false, if_true]
            exact h

theorem invAB_integrateNode {g : FrontendGraph} {acc : IntegrationAcc}
    (i : FrontendNode) (h : InvariantsAB acc.st) :
    InvariantsAB (integrateNode g acc i).st := by
  unfold integrateNode
  dsimp only
  have h1 : InvariantsAB (integrateUsesByDef acc.st g i) :=
    invAB_of_nodesEq (onlyUsesDiffer_integrateUsesByDef _ _ _).1 h
  have h2 := @invAB_integrateFrontendNode (integrateUsesByDef acc.st g i)
    i _ rfl h1
  split
  · exact invAB_of_nodesEq rfl h2
  · exact h2

theorem invAB_eraseNodeAt {st : DriverGraph} (s : String) (k : DependencyKey)
    (h : InvariantsAB st) : InvariantsAB (eraseNodeAt st s k) := by
  intro k2
  have h2 := h k2
  refine ⟨le_trans (expatCount_eraseNodeAt_le st s k k2) h2.1, ?_⟩
  rcases h2.2 with h3 | h3
  · left
    exact Nat.le_zero.1 (h3 ▸ expatCount_eraseNodeAt_le st s k k2)
  · right
    exact Nat.le_zero.1 (h3 ▸ residentCount_eraseNodeAt_le st s k k2)

theorem invAB_integrateChanged {st : DriverGraph} (g : FrontendGraph)
    (h : InvariantsAB st) : InvariantsAB (integrateChanged g st).2 := by
  unfold integrateChanged
  simp only
  have loop : ∀ (l : List FrontendNode) (acc : IntegrationAcc),
      InvariantsAB acc.st → InvariantsAB (l.foldl (integrateNode g) acc).st := by
    intro l
    induction l with
    | nil => intro acc h2; exact h2
    | cons i t ih =>
        intro acc h2
        simp only [List.foldl_cons]
        exact ih _ (invAB_integrateNode i h2)
  have phase : ∀ (ks : List DependencyKey)
      (r : List DependencyKey × DriverGraph), InvariantsAB r.2 →
      InvariantsAB ((ks.foldl
        (fun (r : List DependencyKey × DriverGraph) k =>
          (insertOnce r.1 k, eraseNodeAt r.2 g.swiftDeps k)) r)).2 := by
    intro ks
    induction ks with
    | nil => intro r h2; exact h2
    | cons k t ih =>
        intro r h2
        simp only [List.foldl_cons]
        exact ih _ (invAB_eraseNodeAt _ _ h2)
  exact phase _ _ (loop _ _ h)

theorem invAB_mergeAll (gs : List FrontendGraph) {st : DriverGraph}
    (h : InvariantsAB st) : InvariantsAB (mergeAll gs st) := by
  induction gs generalizing st with
  | nil => exact h
  | cons g t ih =>
      unfold mergeAll
      simp only [List.foldl_cons]
      exact ih (invAB_integrateChanged g h)

/-- C5: after any sequence of merges starting from the fresh graph, for every
key at most one expatriate node exists, and when one exists no resident node
for that key exists in any unit (Invariants A and B). -/
theorem expatriate_uniqueness_after_merges (gs : List FrontendGraph)
    (k : DependencyKey) :
    expatCount (mergeAll gs emptyGraph) k ≤ 1 ∧
      (expatCount (mergeAll gs emptyGraph) k = 0 ∨
        residentCount (mergeAll gs emptyGraph) k = 0) := by
  refine invAB_mergeAll gs ?_ k
  intro k2
  simp [expatCount, residentCount, emptyGraph]

/-! Generic preservation and establishment lemmas for left folds. -/

theorem foldl_pres {α β : Type} (P : α → Prop) (step : α → β → α)
    (hstep : ∀ a b, P a → P (step a b)) :
    ∀ (l : List β) (a : α), P a → P (l.foldl step a) := by
  intro l
  induction l with
  | nil => intro a h; exact h
  | cons b t ih =>
      intro a h
      simp only [List.foldl_cons]
      exact ih _ (hstep a b h)

theorem foldl_estab {α β : Type} (P : α → Prop) (step : α → β → α) (bb : β)
    (hstep : ∀ a b, P a → P (step a b)) (hest : ∀ a, P (step a bb)) :
    ∀ (l : List β) (a : α), bb ∈ l → P (l.foldl step a) := by
  intro l
  induction l with
  | nil => intro a h; exact absurd h (List.not_mem_nil bb)
  | cons b t ih =>
      intro a h
      simp only [List.foldl_cons]
      rcases List.mem_cons.1 h with rfl | hb
      · exact foldl_pres P step hstep t _ (hest a)
      · exact ih _ hb

/-! Traversal lemmas for the cascade walk. -/

theorem checkTCC_visited_mono (st : DriverGraph) :
    ∀ (fuel : Nat) (acc : List DriverNode × List String) (d x : DriverNode),
      x ∈ acc.1 →
      x ∈ (checkTransitiveClosureForCascading st fuel acc d).1 := by
  intro fuel
  induction fuel with
  | zero =>
      intro acc d x hx
      exact hx
  | succ f ih =>
      intro acc d x hx
      rw [checkTransitiveClosureForCascading]
      by_cases hd : d ∈ acc.1
      · rw [if_pos hd]; exact hx
      · rw [if_neg hd]
        refine foldl_pres
          (fun acc2 : List DriverNode × List String => x ∈ acc2.1) _ ?_ _ _ ?_
        · intro a u ha
          dsimp only
          apply ih
          by_cases hi : u.key.isInterface = true <;> simp [hi, ha]
        · exact List.mem_cons_of_mem d hx

theorem checkTCC_casc_mono (st : DriverGraph) :
    ∀ (fuel : Nat) (acc : List DriverNode × List String) (d : DriverNode)
      (y : String), y ∈ acc.2 →
      y ∈ (checkTransitiveClosureForCascading st fuel acc d).2 := by
  intro fuel
  induction fuel with
  | zero =>
      intro acc d y hy
      exact hy
  | succ f ih =>
      intro acc d y hy
      rw [checkTransitiveClosureForCascading]
      by_cases hd : d ∈ acc.1
      · rw [if_pos hd]; exact hy
      · rw [if_neg hd]
        refine foldl_pres
          (fun acc2 : List DriverNode × List String => y ∈ acc2.2) _ ?_ _ _ ?_
        · intro a u ha
          dsimp only
          apply ih
          by_cases hi : u.key.isInterface = true
          · simp only [hi, if_true]
            exact mem_insertOnce.2 (Or.inl ha)
          · simp only [hi, Bool.false_eq_true, if_false]
            exact ha
        · exact hy

theorem checkTCC_mem_self (st : DriverGraph) {fuel : Nat}
    (acc : List DriverNode × List String) (d : DriverNode) (hf : 0 < fuel) :
    d ∈ (checkTransitiveClosureForCascading st fuel acc d).1 := by
  cases fuel with
  | zero => exact absurd hf (by simp)
  | succ f =>
      rw [checkTransitiveClosureForCascading]
      by_cases hd : d ∈ acc.1
      · rw [if_pos hd]; exact hd
      · rw [if_neg hd]
        refine foldl_pres
          (fun acc2 : List DriverNode × List String => d ∈ acc2.1) _ ?_ _ _ ?_
        · intro a u ha
          dsimp only
          apply checkTCC_visited_mono
          by_cases hi : u.key.isInterface = true <;> simp [hi, ha]
        · exact List.mem_cons_self d acc.1

/-- C1 is false as stated: on a graph where unit a.swiftdeps owns one node,
`markTransitive` for that unit returns a list containing the unit itself. -/
theorem markTransitive_excludes_start_cex :
    (∃ n ∈ oneNodeGraph.nodes, n.swiftDeps = some "a.swiftdeps") ∧
    "a.swiftdeps" ∈ (markTransitive oneNodeGraph "a.swiftdeps").1 :=
  ⟨by decide, by decide⟩

/-- C1 (amended): whenever the unit has at least one resident node,
`markTransitive` returns a list that does contain the starting unit itself:
the traversal seeds the visited node set with the nodes of the unit, and the
copy-back loop does not exclude the starting swiftDeps. -/
theorem markTransitive_includes_start_unit (st : DriverGraph) (U : String)
    (hex : ∃ n ∈ st.nodes, n.swiftDeps = some U) :
    U ∈ (markTransitive st U).1 := by
  obtain ⟨n, hn, hns⟩ := hex
  unfold markTransitive
  dsimp only
  have hstart : n ∈ st.nodes.filter (fun m => decide (swiftDepsKey m = U)) :=
    List.mem_filter.2 ⟨hn, by simp [swiftDepsKey, hns]⟩
  have hvis : n ∈ ((st.nodes.filter
      (fun m => decide (swiftDepsKey m = U))).foldl
      (fun acc m =>
        checkTransitiveClosureForCascading st (st.nodes.length + 1) acc m)
      ([], st.cascadingJobs)).1 := by
    refine foldl_estab (fun acc : List DriverNode × List String => n ∈ acc.1)
      _ n ?_ ?_ _ _ hstart
    · intro a m ha
      exact checkTCC_visited_mono st _ a m n ha
    · intro a
      exact checkTCC_mem_self st a n (Nat.succ_pos _)
  refine foldl_estab (fun acc : List String × DriverGraph => U ∈ acc.1)
    _ n ?_ ?_ _ _ hvis
  · intro a m ha
    dsimp only
    cases hm : m.swiftDeps with
    | none => exact ha
    | some sd =>
        dsimp only
        by_cases hmem : sd ∈ a.1
        · rw [if_pos hmem]
          exact ha
        · rw [if_neg hmem]
          exact List.mem_append_left _ ha
  · intro a
    dsimp only
    rw [hns]
    dsimp only
    by_cases hmem : U ∈ a.1
    · rw [if_pos hmem]
      exact hmem
    · rw [if_neg hmem]
      exact List.mem_append_right _ (List.mem_singleton.2 rfl)

/-- Witness for the amended C1 theorem at a concrete one-node graph. -/
theorem markTransitive_includes_start_unit_witness :
    (∃ n ∈ oneNodeGraph.nodes, n.swiftDeps = some "a.swiftdeps") ∧
    "a.swiftdeps" ∈ (markTransitive oneNodeGraph "a.swiftdeps").1 :=
  ⟨by decide,
    markTransitive_includes_start_unit oneNodeGraph "a.swiftdeps" (by decide)⟩

/-- C9 is false as stated: in `twoUnitEdgeGraph` the traversal from unit
a.swiftdeps discovers the edge to the interface-keyed use node of unit
b.swiftdeps (so b.swiftdeps is among the visited jobs), yet b.swiftdeps is not
inserted into the cascading set. -/
theorem cascade_flags_use_unit_cex :
    "b.swiftdeps" ∈ (markTransitive twoUnitEdgeGraph "a.swiftdeps").1 ∧
    "b.swiftdeps" ∉
      (markTransitive twoUnitEdgeGraph "a.swiftdeps").2.cascadingJobs :=
  ⟨by decide, by decide⟩

/-- C9 (amended): during the cascade walk, when an unvisited def node has a
use node whose key is of interface kind, it is the swiftDeps of the def node
(the provider), not the owning unit of the use node, that is inserted into
the cascading set. -/
theorem cascade_interface_use_flags_def_unit (st : DriverGraph) (fuel : Nat)
    (acc : List DriverNode × List String) (d u : DriverNode)
    (hf : 0 < fuel) (hd : d ∉ acc.1) (hu : u ∈ forEachUseOfDriver st d)
    (hi : u.key.isInterface = true) :
    swiftDepsKey d ∈ (checkTransitiveClosureForCascading st fuel acc d).2 := by
  cases fuel with
  | zero => exact absurd hf (by simp)
  | succ f =>
      rw [checkTransitiveClosureForCascading]
      rw [if_neg hd]
      obtain ⟨l1, l2, hL⟩ := List.append_of_mem hu
      rw [hL, List.foldl_append, List.foldl_cons]
      refine foldl_pres
        (fun acc2 : List DriverNode × List String =>
          swiftDepsKey d ∈ acc2.2) _ ?_ _ _ ?_
      · intro a u2 ha
        dsimp only
        apply checkTCC_casc_mono
        by_cases hi2 : u2.key.isInterface = true
        · simp only [hi2, if_true]
          exact mem_insertOnce.2 (Or.inl ha)
        · simp only [hi2, Bool.false_eq_true, if_false]
          exact ha
      · dsimp only
        rw [if_pos hi]
        apply checkTCC_casc_mono
        exact self_mem_insertOnce

/-- Witness for the amended C9 theorem on the concrete two-unit graph. -/
theorem cascade_interface_use_flags_def_unit_witness :
    (0 < 2 ∧ defNodeA ∉ ([] : List DriverNode) ∧
      useNodeB ∈ forEachUseOfDriver twoUnitEdgeGraph defNodeA ∧
      useNodeB.key.isInterface = true) ∧
    swiftDepsKey defNodeA ∈
      (checkTransitiveClosureForCascading twoUnitEdgeGraph 2 ([], [])
        defNodeA).2 :=
  ⟨⟨by decide, by decide, by decide, by decide⟩,
    cascade_interface_use_flags_def_unit twoUnitEdgeGraph 2 ([], [])
      defNodeA useNodeB (by decide) (by decide) (by decide) (by decide)⟩

/-! Lookup lemmas for the node map under its mutating operations. -/

theorem findNode_of_nodesEq {st st' : DriverGraph} (h : st'.nodes = st.nodes)
    (s : String) (k : DependencyKey) : findNode st' s k = findNode st s k := by
  unfold findNode
  rw [h]

theorem find?_map_replace (s : String) (k : DependencyKey) (fp : Option String) :
    ∀ l : List DriverNode,
      (l.map (fun n =>
        if swiftDepsKey n = s ∧ n.key = k then { n with fingerprint := fp }
        else n)).find? (fun n => decide (swiftDepsKey n = s ∧ n.key = k)) =
      (l.find? (fun n => decide (swiftDepsKey n = s ∧ n.key = k))).map
        (fun n => { n with fingerprint := fp }) := by
  intro l
  induction l with
  | nil => rfl
  | cons a t ih =>
      by_cases ha : swiftDepsKey a = s ∧ a.key = k
      · simp only [List.map_cons, if_pos ha]
        have h1 : List.find? (fun n => decide (swiftDepsKey n = s ∧ n.key = k))
            (a :: t) = some a :=
          List.find?_cons_of_pos _ (by simp [ha])
        have h2 : List.find? (fun n => decide (swiftDepsKey n = s ∧ n.key = k))
            (({ a with fingerprint := fp } : DriverNode) ::
              t.map (fun n =>
                if swiftDepsKey n = s ∧ n.key = k then
                  { n with fingerprint := fp }
                else n)) = some { a with fingerprint := fp } :=
          List.find?_cons_of_pos _
            (by simp only [decide_eq_true_eq]; exact ⟨ha.1, ha.2⟩)
        rw [h1, h2]
        rfl
      · simp only [List.map_cons, if_neg ha]
        have h1 : List.find? (fun n => decide (swiftDepsKey n = s ∧ n.key = k))
            (a :: t) = List.find? (fun n =>
              decide (swiftDepsKey n = s ∧ n.key = k)) t :=
          List.find?_cons_of_neg _ (by simp [ha])
        have h2 : List.find? (fun n => decide (swiftDepsKey n = s ∧ n.key = k))
            (a :: t.map (fun n =>
                if swiftDepsKey n = s ∧ n.key = k then
                  { n with fingerprint := fp }
                else n)) = List.find? (fun n =>
              decide (swiftDepsKey n = s ∧ n.key = k)) (t.map (fun n =>
                if swiftDepsKey n = s ∧ n.key = k then
                  { n with fingerprint := fp }
                else n)) :=
          List.find?_cons_of_neg _ (by simp [ha])
        rw [h1, h2]
        exact ih

theorem findNode_replaceFingerprint_self (st : DriverGraph) (s : String)
    (k : DependencyKey) (fp : Option String) :
    findNode (replaceFingerprint st s k fp) s k =
      (findNode st s k).map (fun n => { n with fingerprint := fp }) := by
  unfold findNode replaceFingerprint
  exact find?_map_replace s k fp st.nodes

theorem findNode_integrateFingerprintFrom_self (st : DriverGraph) (s : String)
    (k : DependencyKey) (fp : Option String) :
    findNode (integrateFingerprintFrom st s k fp).2 s k =
      (findNode st s k).map (fun n => { n with fingerprint := fp }) := by
  unfold integrateFingerprintFrom
  cases hf : findNode st s k with
  | none => simp [hf]
  | some n =>
      by_cases hfp : n.fingerprint = fp
      · simp only [if_pos hfp, hf]
        have h2 : { n with fingerprint := fp } = n := by
          cases n
          cases hfp
          rfl
        exact (congrArg some h2).symm
      · simp only [if_neg hfp]
        rw [findNode_replaceFingerprint_self, hf]

theorem find?_map_move (U : String) (k : DependencyKey) :
    ∀ (l : List DriverNode) (e : DriverNode),
      l.find? (fun n => decide (swiftDepsKey n = U ∧ n.key = k)) = none →
      l.find? (fun n => decide (swiftDepsKey n = "" ∧ n.key = k)) = some e →
      (l.map (fun n =>
        if swiftDepsKey n = "" ∧ n.key = k then { n with swiftDeps := some U }
        else n)).find? (fun n => decide (swiftDepsKey n = U ∧ n.key = k)) =
      some { e with swiftDeps := some U } := by
  intro l
  induction l with
  | nil => intro e _ he; exact absurd he (by simp)
  | cons a t ih =>
      intro e hU he
      by_cases ha : swiftDepsKey a = "" ∧ a.key = k
      · rw [List.find?_cons_of_pos _ (by simp [ha])] at he
        injection he with he2
        subst he2
        simp only [List.map_cons, if_pos ha]
        rw [List.find?_cons_of_pos _ (by simp [swiftDepsKey, ha.2])]
      · have haU : ¬(swiftDepsKey a = U ∧ a.key = k) := by
          intro hc
          rw [List.find?_eq_none] at hU
          exact absurd (by simp [hc]) (hU a (List.mem_cons_self a t))
        rw [List.find?_cons_of_neg _ (by simp [ha])] at he
        rw [List.find?_cons_of_neg _ (by simp [haU])] at hU
        simp only [List.map_cons, if_neg ha]
        rw [List.find?_cons_of_neg _ (by simp [haU])]
        exact ih e hU he

theorem findNode_move_promote {st : DriverGraph} {k : DependencyKey}
    {U : String} {e : DriverNode} (hU : findNode st U k = none)
    (he : findNode st "" k = some e) :
    findNode (moveNodeToDifferentFile st "" k (some U)) U k =
      some { e with swiftDeps := some U } := by
  unfold findNode moveNodeToDifferentFile at *
  exact find?_map_move U k st.nodes e hU he

theorem no_expat_after_move (st : DriverGraph) (k : DependencyKey)
    (U : String) :
    ∀ m ∈ (moveNodeToDifferentFile st "" k (some U)).nodes,
      m.key = k → m.swiftDeps ≠ none := by
  intro m hm hk
  unfold moveNodeToDifferentFile at hm
  rcases List.mem_map.1 hm with ⟨n, hn, rfl⟩
  by_cases hc : swiftDepsKey n = "" ∧ n.key = k
  · simp [hc]
  · simp only [if_neg hc]
    intro hnone
    exact hc ⟨by simp [swiftDepsKey, hnone], by simpa [hc] using hk⟩

theorem no_expat_preserved_by_fp (st : DriverGraph) (s : String)
    (k k2 : DependencyKey) (fp : Option String)
    (h : ∀ m ∈ st.nodes, m.key = k2 → m.swiftDeps ≠ none) :
    ∀ m ∈ (integrateFingerprintFrom st s k fp).2.nodes,
      m.key = k2 → m.swiftDeps ≠ none := by
  unfold integrateFingerprintFrom
  cases findNode st s k with
  | none => exact h
  | some n =>
      by_cases hfp : n.fingerprint = fp
      · simp only [if_pos hfp]
        exact h
      · simp only [if_neg hfp]
        intro m hm hk
        unfold replaceFingerprint at hm
        rcases List.mem_map.1 hm with ⟨n2, hn2, rfl⟩
        by_cases hc : swiftDepsKey n2 = s ∧ n2.key = k
        · simp only [if_pos hc]
          exact h n2 hn2 (by simpa [hc] using hk)
        · simp only [if_neg hc]
          exact h n2 hn2 (by simpa [hc] using hk)

/-- C7 is false as stated: re-merging a declaration whose fingerprint is
absent, onto a resident node whose fingerprint is also absent, reports no
changed key at all, although the claim requires the key to be reported
changed whenever either fingerprint is absent. -/
theorem decl_fingerprint_absent_not_changed_cex :
    findNode (integrate declSnapshot emptyGraph).2 "a.swiftdeps" kPlain =
      some ⟨kPlain, none, some "a.swiftdeps"⟩ ∧
    (integrateChanged declSnapshot
      (integrate declSnapshot emptyGraph).2).1 = [] :=
  ⟨by decide, by decide⟩

/-- C7 (amended): when a resident node exists in place for the declaration
being merged, its fingerprint is replaced by the fingerprint of the snapshot
node, and the key is reported changed exactly when the two optional
fingerprints differ as optional values: an absent fingerprint differs from
any present one, but two absent fingerprints compare equal and report
unchanged. -/
theorem decl_in_place_fingerprint_iff (st : DriverGraph) (i : FrontendNode)
    (U : String) (n : DriverNode) (hsd : i.swiftDeps = some U)
    (hp : findNode st U i.key = some n) :
    ((integrateFrontendNode st i (findNode st U i.key)).1 = true ↔
      n.fingerprint ≠ i.fingerprint) ∧
    (∃ n2, findNode (integrateFrontendNode st i (findNode st U i.key)).2
        U i.key = some n2 ∧ n2.fingerprint = i.fingerprint) := by
  unfold integrateFrontendNode
  dsimp only
  rw [hp]
  simp only [hsd, Option.isSome_some, if_true]
  unfold integrateFrontendDeclNode
  dsimp only
  have hfd : frontendDepsKey i = U := by simp [frontendDepsKey, hsd]
  rw [hfd]
  unfold integrateFingerprintFrom
  rw [hp]
  dsimp only
  by_cases hfp : n.fingerprint = i.fingerprint
  · rw [if_pos hfp]
    exact ⟨by simp [hfp], ⟨n, hp, hfp⟩⟩
  · rw [if_neg hfp]
    refine ⟨by simp [hfp], ?_⟩
    refine ⟨{ n with fingerprint := i.fingerprint }, ?_, rfl⟩
    rw [findNode_replaceFingerprint_self, hp]
    rfl

/-- Witness for the amended C7 theorem: a re-declaration with a fresh
fingerprint onto a fingerprint-less resident node. -/
theorem decl_in_place_fingerprint_iff_witness :
    (reDeclFp2.swiftDeps = some "a.swiftdeps" ∧
      findNode oneNodeGraph "a.swiftdeps" reDeclFp2.key =
        some ⟨kPlain, none, some "a.swiftdeps"⟩) ∧
    (((integrateFrontendNode oneNodeGraph reDeclFp2
        (findNode oneNodeGraph "a.swiftdeps" reDeclFp2.key)).1 = true ↔
      (⟨kPlain, none, some "a.swiftdeps"⟩ : DriverNode).fingerprint ≠
        reDeclFp2.fingerprint) ∧
      ∃ n2, findNode (integrateFrontendNode oneNodeGraph reDeclFp2
          (findNode oneNodeGraph "a.swiftdeps" reDeclFp2.key)).2
          "a.swiftdeps" reDeclFp2.key = some n2 ∧
        n2.fingerprint = reDeclFp2.fingerprint) :=
  ⟨⟨by decide, by decide⟩,
    decl_in_place_fingerprint_iff oneNodeGraph reDeclFp2 "a.swiftdeps"
      ⟨kPlain, none, some "a.swiftdeps"⟩ (by decide) (by decide)⟩

/-- C6: when the merge loop processes a declaration for a key with no node in
place for its unit but with a preexisting expatriate node for the key, the
expatriate node is relocated to become resident in that unit, its fingerprint
is updated to that of the snapshot node, the key is reported changed, and no
expatriate node for the key remains. -/
theorem promotion_relocates_expat (g : FrontendGraph) (acc : IntegrationAcc)
    (i : FrontendNode) (U : String) (e : DriverNode)
    (hsd : i.swiftDeps = some U) (hip : findNode acc.st U i.key = none)
    (he : findNode acc.st "" i.key = some e) (hen : e.swiftDeps = none) :
    i.key ∈ (integrateNode g acc i).changed ∧
    (∃ n2, findNode (integrateNode g acc i).st U i.key = some n2 ∧
      n2.fingerprint = i.fingerprint ∧ n2.swiftDeps = some U) ∧
    ∀ m ∈ (integrateNode g acc i).st.nodes, m.key = i.key →
      m.swiftDeps ≠ none := by
  unfold integrateNode
  dsimp only
  have hnodes : (integrateUsesByDef acc.st g i).nodes = acc.st.nodes :=
    (onlyUsesDiffer_integrateUsesByDef _ _ _).1
  rw [hsd]
  try dsimp only
  rw [findNode_of_nodesEq hnodes, hip]
  try dsimp only [Option.isSome_none]
  unfold integrateFrontendNode
  dsimp only
  simp only [hsd, Option.isSome_some, if_true, Option.isSome_none,
    Bool.false_eq_true, if_false]
  rw [findNode_of_nodesEq hnodes, he]
  unfold integrateFrontendDeclNode
  dsimp only
  have hfd : frontendDepsKey i = U := by simp [frontendDepsKey, hsd]
  rw [hfd, hsd]
  set st1 := integrateUsesByDef acc.st g i with hst1
  have hip1 : findNode st1 U i.key = none := by
    rw [findNode_of_nodesEq hnodes]; exact hip
  have he1 : findNode st1 "" i.key = some e := by
    rw [findNode_of_nodesEq hnodes]; exact he
  have hmove : findNode (moveNodeToDifferentFile st1 "" i.key (some U))
      U i.key = some { e with swiftDeps := some U } :=
    findNode_move_promote hip1 he1
  refine ⟨?_, ?_, ?_⟩
  · simp only
    split
    · exact self_mem_insertOnce
    · rename_i hcond
      exact absurd trivial hcond
  · refine ⟨{ e with fingerprint := i.fingerprint, swiftDeps := some U },
      ?_, rfl, rfl⟩
    have hf2 := findNode_integrateFingerprintFrom_self
      (moveNodeToDifferentFile st1 "" i.key (some U)) U i.key i.fingerprint
    rw [hmove] at hf2
    split
    · exact hf2
    · exact hf2
  · intro m hm hk
    have hne := no_expat_preserved_by_fp
      (moveNodeToDifferentFile st1 "" i.key (some U)) U i.key i.key
      i.fingerprint (no_expat_after_move st1 i.key U)
    revert hm
    split <;> exact fun hm => hne m hm hk

/-- Witness for the C6 promotion theorem at a concrete one-expatriate
graph. -/
theorem promotion_relocates_expat_witness :
    (promoteIntegrand.swiftDeps = some "u2.swiftdeps" ∧
      findNode promoteAcc.st "u2.swiftdeps" promoteIntegrand.key = none ∧
      findNode promoteAcc.st "" promoteIntegrand.key =
        some ⟨kPlain, none, none⟩ ∧
      (⟨kPlain, none, none⟩ : DriverNode).swiftDeps = none) ∧
    (promoteIntegrand.key ∈
        (integrateNode emptySnapshot promoteAcc promoteIntegrand).changed ∧
      (∃ n2, findNode
          (integrateNode emptySnapshot promoteAcc promoteIntegrand).st
          "u2.swiftdeps" promoteIntegrand.key = some n2 ∧
        n2.fingerprint = promoteIntegrand.fingerprint ∧
        n2.swiftDeps = some "u2.swiftdeps") ∧
      ∀ m ∈ (integrateNode emptySnapshot promoteAcc promoteIntegrand).st.nodes,
        m.key = promoteIntegrand.key → m.swiftDeps ≠ none) :=
  ⟨⟨by decide, by decide, by decide, by decide⟩,
    promotion_relocates_expat emptySnapshot promoteAcc promoteIntegrand
      "u2.swiftdeps" ⟨kPlain, none, none⟩ (by decide) (by decide) (by decide)
      (by decide)⟩

/-! More general fold lemmas, with membership information. -/

theorem foldl_pres_mem {α β : Type} (P : α → Prop) (step : α → β → α) :
    ∀ (l : List β), (∀ a b, b ∈ l → P a → P (step a b)) →
      ∀ a, P a → P (l.foldl step a) := by
  intro l
  induction l with
  | nil => intro _ a h; exact h
  | cons b t ih =>
      intro hstep a h
      simp only [List.foldl_cons]
      exact ih (fun a2 b2 hb2 => hstep a2 b2 (List.mem_cons_of_mem b hb2)) _
        (hstep a b (List.mem_cons_self b t) h)

theorem foldl_estab_under {α β : Type} (Q R : α → Prop) (step : α → β → α)
    (bb : β) (hQ : ∀ a b, Q a → Q (step a b))
    (hR : ∀ a b, R a → R (step a b)) (hest : ∀ a, Q a → R (step a bb)) :
    ∀ (l : List β) (a : α), Q a → bb ∈ l → R (l.foldl step a) := by
  intro l
  induction l with
  | nil => intro a _ hm; exact absurd hm (List.not_mem_nil bb)
  | cons b t ih =>
      intro a hQa hm
      simp only [List.foldl_cons]
      rcases List.mem_cons.1 hm with rfl | hb
      · exact foldl_pres R step hR t _ (hest a hQa)
      · exact ih _ (hQ a b hQa) hb

/-! Slot occupancy under the node map operations. -/

theorem hasNodeAt_iff_findNode (st : DriverGraph) (s : String)
    (k : DependencyKey) : HasNodeAt st s k ↔ (findNode st s k).isSome := by
  unfold HasNodeAt findNode
  rw [List.find?_isSome]
  simp

theorem hasNodeAt_of_nodesEq {st st' : DriverGraph}
    (h : st'.nodes = st.nodes) {s : String} {k : DependencyKey}
    (h2 : HasNodeAt st s k) : HasNodeAt st' s k := by
  unfold HasNodeAt at *
  rw [h]
  exact h2

theorem hasNodeAt_replaceFingerprint {st : DriverGraph} {s : String}
    {k : DependencyKey} (s2 : String) (k2 : DependencyKey) (fp : Option String)
    (h : HasNodeAt st s k) : HasNodeAt (replaceFingerprint st s2 k2 fp) s k := by
  obtain ⟨n, hn, h1, h2⟩ := h
  unfold replaceFingerprint
  refine ⟨_, List.mem_map_of_mem
    (fun n => if swiftDepsKey n = s2 ∧ n.key = k2 then
      { n with fingerprint := fp } else n) hn, ?_⟩
  by_cases hc : swiftDepsKey n = s2 ∧ n.key = k2
  · rw [if_pos hc]
    exact ⟨h1, h2⟩
  · rw [if_neg hc]
    exact ⟨h1, h2⟩

theorem hasNodeAt_integrateFingerprintFrom {st : DriverGraph} {s : String}
    {k : DependencyKey} (s2 : String) (k2 : DependencyKey) (fp : Option String)
    (h : HasNodeAt st s k) :
    HasNodeAt (integrateFingerprintFrom st s2 k2 fp).2 s k := by
  unfold integrateFingerprintFrom
  cases findNode st s2 k2 with
  | none => exact h
  | some n =>
      by_cases hfp : n.fingerprint = fp
      · simp only [if_pos hfp]
        exact h
      · simp only [if_neg hfp]
        exact hasNodeAt_replaceFingerprint s2 k2 fp h

theorem hasNodeAt_move_from_blank {st : DriverGraph} {s : String}
    {k k2 : DependencyKey} {d : Option String} (hs : s ≠ "")
    (h : HasNodeAt st s k) :
    HasNodeAt (moveNodeToDifferentFile st "" k2 d) s k := by
  obtain ⟨n, hn, h1, h2⟩ := h
  unfold moveNodeToDifferentFile
  have hc : ¬(swiftDepsKey n = "" ∧ n.key = k2) := by
    intro hc
    exact hs (h1 ▸ hc.1 ▸ rfl)
  refine ⟨_, List.mem_map_of_mem
    (fun n => if swiftDepsKey n = "" ∧ n.key = k2 then
      { n with swiftDeps := d } else n) hn, ?_⟩
  rw [if_neg hc]
  exact ⟨h1, h2⟩

theorem hasNodeAt_addToMap {st : DriverGraph} {s : String}
    {k : DependencyKey} (n2 : DriverNode) (h : HasNodeAt st s k) :
    HasNodeAt (addToMap st n2) s k := by
  obtain ⟨n, hn, h1, h2⟩ := h
  exact ⟨n, List.mem_append_left _ hn, h1, h2⟩

theorem hasNodeAt_eraseNodeAt_ne {st : DriverGraph} {s : String}
    {k : DependencyKey} (s2 : String) {k2 : DependencyKey} (hne : k ≠ k2)
    (h : HasNodeAt st s k) : HasNodeAt (eraseNodeAt st s2 k2) s k := by
  obtain ⟨n, hn, h1, h2⟩ := h
  refine ⟨n, List.mem_filter.2 ⟨hn, ?_⟩, h1, h2⟩
  simp only [decide_eq_true_eq, not_and]
  intro _ hk
  exact hne (h2 ▸ hk ▸ rfl)

theorem not_hasNodeAt_eraseNodeAt_self (st : DriverGraph) (s : String)
    (k : DependencyKey) : ¬HasNodeAt (eraseNodeAt st s k) s k := by
  rintro ⟨n, hn, h1, h2⟩
  have := (List.mem_filter.1 hn).2
  simp only [decide_eq_true_eq] at this
  exact this ⟨h1, h2⟩

theorem not_hasNodeAt_eraseNodeAt_mono {st : DriverGraph} {s : String}
    {k : DependencyKey} (s2 : String) (k2 : DependencyKey)
    (h : ¬HasNodeAt st s k) : ¬HasNodeAt (eraseNodeAt st s2 k2) s k := by
  rintro ⟨n, hn, h1, h2⟩
  exact h ⟨n, (List.mem_filter.1 hn).1, h1, h2⟩

/-! Slot occupancy through one step of the merge loop. -/

theorem hasNodeAt_integrateFrontendDeclNode {st : DriverGraph}
    {i : FrontendNode} {s : String} {k : DependencyKey}
    (p e : Option DriverNode) (hs : s ≠ "") (h : HasNodeAt st s k) :
    HasNodeAt (integrateFrontendDeclNode st i p e).2 s k := by
  unfold integrateFrontendDeclNode
  cases p with
  | some n => exact hasNodeAt_integrateFingerprintFrom _ _ _ h
  | none =>
      cases e with
      | some n =>
          dsimp only
          exact hasNodeAt_integrateFingerprintFrom _ _ _
            (hasNodeAt_move_from_blank hs h)
      | none => exact hasNodeAt_addToMap _ h

theorem hasNodeAt_integrateFrontendExpatNode_noInPlace {st : DriverGraph}
    {i : FrontendNode} {s : String} {k : DependencyKey}
    (e : Option DriverNode) (dups : Bool) (h : HasNodeAt st s k) :
    HasNodeAt (integrateFrontendExpatNode st i none e dups).2 s k := by
  unfold integrateFrontendExpatNode
  split
  · exact h
  · exact hasNodeAt_addToMap _ h

theorem hasNodeAt_integrateNode_decl {g : FrontendGraph}
    {acc : IntegrationAcc} {s : String} {k : DependencyKey}
    {i : FrontendNode} {sd : String} (hsd : i.swiftDeps = some sd)
    (hs : s ≠ "") (h : HasNodeAt acc.st s k) :
    HasNodeAt (integrateNode g acc i).st s k := by
  unfold integrateNode
  dsimp only
  rw [hsd]
  try dsimp only
  have h1 : HasNodeAt (integrateUsesByDef acc.st g i) s k :=
    hasNodeAt_of_nodesEq (onlyUsesDiffer_integrateUsesByDef _ _ _).1 h
  have h3 : HasNodeAt (integrateFrontendNode (integrateUsesByDef acc.st g i)
      i (findNode (integrateUsesByDef acc.st g i) sd i.key)).2 s k := by
    unfold integrateFrontendNode
    dsimp only
    simp only [hsd, Option.isSome_some, if_true]
    exact hasNodeAt_integrateFrontendDeclNode _ _ hs h1
  split
  · exact hasNodeAt_of_nodesEq rfl h3
  · exact h3

theorem hasNodeAt_integrateNode_expat {g : FrontendGraph}
    {acc : IntegrationAcc} {s : String} {k : DependencyKey}
    {i : FrontendNode} (hsd : i.swiftDeps = none)
    (h : HasNodeAt acc.st s k) : HasNodeAt (integrateNode g acc i).st s k := by
  unfold integrateNode
  dsimp only
  rw [hsd]
  try dsimp only
  have h1 : HasNodeAt (integrateUsesByDef acc.st g i) s k :=
    hasNodeAt_of_nodesEq (onlyUsesDiffer_integrateUsesByDef _ _ _).1 h
  have h3 : HasNodeAt
      (integrateFrontendNode (integrateUsesByDef acc.st g i) i none).2
      s k := by
    unfold integrateFrontendNode
    dsimp only
    simp only [hsd, Option.isSome_none, Bool.false_eq_true, if_false]
    exact hasNodeAt_integrateFrontendExpatNode_noInPlace _ _ h1
  split
  · exact hasNodeAt_of_nodesEq rfl h3
  · exact h3

theorem hasNodeAt_integrateNode {g : FrontendGraph} {acc : IntegrationAcc}
    {s : String} {k : DependencyKey} (i : FrontendNode) (hs : s ≠ "")
    (h : HasNodeAt acc.st s k) : HasNodeAt (integrateNode g acc i).st s k := by
  cases hsw : i.swiftDeps with
  | some sd => exact hasNodeAt_integrateNode_decl hsw hs h
  | none => exact hasNodeAt_integrateNode_expat hsw h

theorem hasNodeAt_after_own_decl {g : FrontendGraph} {acc : IntegrationAcc}
    {i : FrontendNode} {sd : String} (hsd : i.swiftDeps = some sd) :
    HasNodeAt (integrateNode g acc i).st sd i.key := by
  unfold integrateNode
  dsimp only
  rw [hsd]
  dsimp only
  have hkey : HasNodeAt (integrateFrontendNode (integrateUsesByDef acc.st g i)
      i (findNode (integrateUsesByDef acc.st g i) sd i.key)).2 sd i.key := by
    unfold integrateFrontendNode
    dsimp only
    simp only [hsd, Option.isSome_some, if_true]
    unfold integrateFrontendDeclNode
    cases hp : findNode (integrateUsesByDef acc.st g i) sd i.key with
    | some n =>
        dsimp only
        have hocc : HasNodeAt (integrateUsesByDef acc.st g i) sd i.key :=
          (hasNodeAt_iff_findNode _ _ _).2 (by rw [hp]; rfl)
        exact hasNodeAt_integrateFingerprintFrom _ _ _ hocc
    | none =>
        dsimp only
        cases he : findNode (integrateUsesByDef acc.st g i) "" i.key with
        | some e0 =>
            try dsimp only
            have hfd : frontendDepsKey i = sd := by
              simp [frontendDepsKey, hsd]
            rw [hfd, hsd]
            have hmv := findNode_move_promote hp he
            have hocc2 : HasNodeAt (moveNodeToDifferentFile
                (integrateUsesByDef acc.st g i) "" i.key (some sd))
                sd i.key :=
              (hasNodeAt_iff_findNode _ _ _).2 (by rw [hmv]; rfl)
            exact hasNodeAt_integrateFingerprintFrom _ _ _ hocc2
        | none =>
            try dsimp only
            unfold integrateByCreatingANewNode addToMap
            refine ⟨⟨i.key, i.fingerprint, i.swiftDeps⟩,
              List.mem_append_right _ (List.mem_singleton.2 rfl), ?_, rfl⟩
            simp [swiftDepsKey, hsd]
  split
  · exact hasNodeAt_of_nodesEq rfl hkey
  · exact hkey

/-! The disappeared set through one step of the merge loop. -/

theorem disappeared_integrateNode_subset {g : FrontendGraph}
    {acc : IntegrationAcc} {i : FrontendNode} {k : DependencyKey}
    (h : k ∈ (integrateNode g acc i).disappeared) : k ∈ acc.disappeared := by
  unfold integrateNode at h
  dsimp only at h
  revert h
  split
  · intro h
    exact (List.mem_filter.1 h).1
  · intro h
    exact h

theorem mem_disappeared_integrateNode {g : FrontendGraph}
    {acc : IntegrationAcc} {i : FrontendNode} {k : DependencyKey}
    (hne : i.key ≠ k) (h : k ∈ acc.disappeared) :
    k ∈ (integrateNode g acc i).disappeared := by
  unfold integrateNode
  dsimp only
  split
  · exact List.mem_filter.2 ⟨h, by simp [Ne.symm hne]⟩
  · exact h

theorem not_mem_disappeared_after_found {g : FrontendGraph}
    {acc : IntegrationAcc} {i : FrontendNode} {sd : String}
    (hsd : i.swiftDeps = some sd)
    (hf : findNode (integrateUsesByDef acc.st g i) sd i.key ≠ none) :
    i.key ∉ (integrateNode g acc i).disappeared := by
  unfold integrateNode
  dsimp only
  rw [hsd]
  dsimp only
  cases hp : findNode (integrateUsesByDef acc.st g i) sd i.key with
  | none => exact absurd hp hf
  | some n =>
      rw [if_pos (show (some n : Option DriverNode).isSome = true from rfl)]
      intro hmem
      have := (List.mem_filter.1 hmem).2
      simp at this

/-! The disappeared-node phase at the end of a merge. -/

theorem mem_disappeared0_of_hasNodeAt {st : DriverGraph} {U : String}
    {k : DependencyKey} (h : HasNodeAt st U k) :
    k ∈ (st.nodes.filter (fun n => decide (swiftDepsKey n = U))).map
      (fun n => n.key) := by
  obtain ⟨n, hn, h1, h2⟩ := h
  exact List.mem_map.2 ⟨n, List.mem_filter.2 ⟨hn, by simp [h1]⟩, h2⟩

theorem hasNodeAt_of_mem_disappeared0 {st : DriverGraph} {U : String}
    {k : DependencyKey}
    (h : k ∈ (st.nodes.filter (fun n => decide (swiftDepsKey n = U))).map
      (fun n => n.key)) : HasNodeAt st U k := by
  rcases List.mem_map.1 h with ⟨n, hn, rfl⟩
  have h2 := List.mem_filter.1 hn
  exact ⟨n, h2.1, by simpa using h2.2, rfl⟩

theorem phase_mem_changed (U : String) (k : DependencyKey)
    (ks : List DependencyKey) (r : List DependencyKey × DriverGraph)
    (hk : k ∈ ks) :
    k ∈ (ks.foldl (fun (r : List DependencyKey × DriverGraph) k2 =>
      (insertOnce r.1 k2, eraseNodeAt r.2 U k2)) r).1 := by
  refine foldl_estab
    (fun r2 : List DependencyKey × DriverGraph => k ∈ r2.1) _ k ?_ ?_ _ _ hk
  · intro a b ha
    exact mem_insertOnce.2 (Or.inl ha)
  · intro a
    exact self_mem_insertOnce

theorem phase_kills_slot (U : String) (k : DependencyKey)
    (ks : List DependencyKey) (r : List DependencyKey × DriverGraph)
    (hk : k ∈ ks) :
    ¬HasNodeAt (ks.foldl (fun (r : List DependencyKey × DriverGraph) k2 =>
      (insertOnce r.1 k2, eraseNodeAt r.2 U k2)) r).2 U k := by
  refine foldl_estab
    (fun r2 : List DependencyKey × DriverGraph => ¬HasNodeAt r2.2 U k) _ k
    ?_ ?_ _ _ hk
  · intro a b ha
    exact not_hasNodeAt_eraseNodeAt_mono _ _ ha
  · intro a
    exact not_hasNodeAt_eraseNodeAt_self _ _ _

theorem phase_pres_slot (s2 U : String) (k : DependencyKey)
    (ks : List DependencyKey) (r : List DependencyKey × DriverGraph)
    (hk : k ∉ ks) (h : HasNodeAt r.2 U k) :
    HasNodeAt (ks.foldl (fun (r : List DependencyKey × DriverGraph) k2 =>
      (insertOnce r.1 k2, eraseNodeAt r.2 s2 k2)) r).2 U k := by
  refine foldl_pres_mem
    (fun r2 : List DependencyKey × DriverGraph => HasNodeAt r2.2 U k) _ _
    ?_ _ h
  · intro a b hb ha
    exact hasNodeAt_eraseNodeAt_ne _ (fun he => hk (he ▸ hb)) ha

theorem integrate_affectsDownstream_of_mem {g : FrontendGraph}
    {st : DriverGraph} {k : DependencyKey}
    (h : k ∈ (integrateChanged g st).1) :
    (integrate g st).1 = LoadResult.affectsDownstream := by
  unfold integrate
  dsimp only
  have hne : (integrateChanged g st).1 ≠ [] := List.ne_nil_of_mem h
  rw [if_neg (by simpa [List.isEmpty_iff] using hne)]

/-- C4: when unit U is merged with a snapshot declaring key k and then merged
again with a snapshot not mentioning k, after the second merge no resident
node for k owned by U remains, k is in the changed-key set of the second
merge, and the second merge returns AffectsDownstream. -/
theorem disappearance_reports_changed (st0 : DriverGraph)
    (g1 g2 : FrontendGraph) (U : String) (k : DependencyKey) (hU : U ≠ "")
    (hg1 : g1.swiftDeps = U) (hg2 : g2.swiftDeps = U)
    (h1 : ∃ i ∈ g1.nodes, i.swiftDeps = some U ∧ i.key = k)
    (h2 : ∀ j ∈ g2.nodes, j.key ≠ k) :
    k ∈ (integrateChanged g2 (integrate g1 st0).2).1 ∧
    (∀ m ∈ (integrateChanged g2 (integrate g1 st0).2).2.nodes,
      m.key = k → m.swiftDeps ≠ some U) ∧
    (integrate g2 (integrate g1 st0).2).1 = LoadResult.affectsDownstream := by
  obtain ⟨i0, hi0, hi0sd, hi0k⟩ := h1
  have hQstep : ∀ (acc : IntegrationAcc) (j : FrontendNode),
      (k ∈ acc.disappeared → HasNodeAt acc.st U k) →
      (k ∈ (integrateNode g1 acc j).disappeared →
        HasNodeAt (integrateNode g1 acc j).st U k) := by
    intro acc j hq hmem
    exact hasNodeAt_integrateNode j hU
      (hq (disappeared_integrateNode_subset hmem))
  have hRstep : ∀ (acc : IntegrationAcc) (j : FrontendNode),
      (HasNodeAt acc.st U k ∧ k ∉ acc.disappeared) →
      (HasNodeAt (integrateNode g1 acc j).st U k ∧
        k ∉ (integrateNode g1 acc j).disappeared) := by
    intro acc j hr
    exact ⟨hasNodeAt_integrateNode j hU hr.1,
      fun hmem => hr.2 (disappeared_integrateNode_subset hmem)⟩
  have hEst : ∀ acc : IntegrationAcc,
      (k ∈ acc.disappeared → HasNodeAt acc.st U k) →
      (HasNodeAt (integrateNode g1 acc i0).st U k ∧
        k ∉ (integrateNode g1 acc i0).disappeared) := by
    intro acc hq
    constructor
    · exact hi0k ▸ @hasNodeAt_after_own_decl g1 acc i0 U hi0sd
    · by_cases hf : findNode (integrateUsesByDef acc.st g1 i0) U i0.key = none
      · have hnot : ¬HasNodeAt (integrateUsesByDef acc.st g1 i0) U i0.key := by
          rw [hasNodeAt_iff_findNode, hf]
          simp
        have hnot0 : ¬HasNodeAt acc.st U k := by
          intro hc
          apply hnot
          rw [hi0k]
          exact hasNodeAt_of_nodesEq
            (onlyUsesDiffer_integrateUsesByDef _ _ _).1 hc
        exact fun hmem => hnot0 (hq (disappeared_integrateNode_subset hmem))
      · exact hi0k ▸ not_mem_disappeared_after_found hi0sd hf
  have hQ0 : k ∈ ((st0.nodes.filter (fun n =>
      decide (swiftDepsKey n = g1.swiftDeps))).map (fun n => n.key)) →
      HasNodeAt st0 U k := by
    intro hmem
    have h3 := hasNodeAt_of_mem_disappeared0 hmem
    rwa [hg1] at h3
  have hst1 : HasNodeAt (integrate g1 st0).2 U k := by
    show HasNodeAt (integrateChanged g1 st0).2 U k
    unfold integrateChanged
    dsimp only
    have hloop := foldl_estab_under
      (fun acc : IntegrationAcc => k ∈ acc.disappeared → HasNodeAt acc.st U k)
      (fun acc : IntegrationAcc => HasNodeAt acc.st U k ∧ k ∉ acc.disappeared)
      (integrateNode g1) i0 hQstep hRstep hEst g1.nodes
      ⟨st0, (st0.nodes.filter (fun n =>
        decide (swiftDepsKey n = g1.swiftDeps))).map (fun n => n.key), []⟩
      hQ0 hi0
    exact phase_pres_slot _ _ _ _ _ hloop.2 hloop.1
  have hd0 : k ∈ ((integrate g1 st0).2.nodes.filter (fun n =>
      decide (swiftDepsKey n = g2.swiftDeps))).map (fun n => n.key) := by
    rw [hg2]
    exact mem_disappeared0_of_hasNodeAt hst1
  have hkeep : k ∈ (g2.nodes.foldl (integrateNode g2)
      ⟨(integrate g1 st0).2, ((integrate g1 st0).2.nodes.filter (fun n =>
        decide (swiftDepsKey n = g2.swiftDeps))).map (fun n => n.key),
        []⟩).disappeared := by
    refine foldl_pres_mem
      (fun acc : IntegrationAcc => k ∈ acc.disappeared) _ _ ?_ _ hd0
    intro acc j hj hmem
    exact mem_disappeared_integrateNode (h2 j hj) hmem
  refine ⟨?_, ?_, ?_⟩
  · show k ∈ (integrateChanged g2 (integrate g1 st0).2).1
    unfold integrateChanged
    dsimp only
    exact phase_mem_changed _ k _ _ hkeep
  · intro m hm hkm hsw
    unfold integrateChanged at hm
    dsimp only at hm
    exact phase_kills_slot g2.swiftDeps k _ _ hkeep
      ⟨m, hm, by simp [swiftDepsKey, hsw, hg2], hkm⟩
  · apply integrate_affectsDownstream_of_mem
    show k ∈ (integrateChanged g2 (integrate g1 st0).2).1
    unfold integrateChanged
    dsimp only
    exact phase_mem_changed _ k _ _ hkeep

/-- Witness for the C4 disappearance theorem: declare a key in one snapshot
of a unit, then merge an empty snapshot of the same unit. -/
theorem disappearance_reports_changed_witness :
    ("a.swiftdeps" ≠ "" ∧ declSnapshot.swiftDeps = "a.swiftdeps" ∧
      emptySnapshot.swiftDeps = "a.swiftdeps" ∧
      (∃ i ∈ declSnapshot.nodes,
        i.swiftDeps = some "a.swiftdeps" ∧ i.key = kPlain) ∧
      (∀ j ∈ emptySnapshot.nodes, j.key ≠ kPlain)) ∧
    (kPlain ∈
        (integrateChanged emptySnapshot
          (integrate declSnapshot emptyGraph).2).1 ∧
      (∀ m ∈ (integrateChanged emptySnapshot
          (integrate declSnapshot emptyGraph).2).2.nodes,
        m.key = kPlain → m.swiftDeps ≠ some "a.swiftdeps") ∧
      (integrate emptySnapshot (integrate declSnapshot emptyGraph).2).1 =
        LoadResult.affectsDownstream) :=
  ⟨⟨by decide, by decide, by decide, by decide, by decide⟩,
    disappearance_reports_changed emptyGraph declSnapshot emptySnapshot
      "a.swiftdeps" kPlain (by decide) (by decide) (by decide) (by decide)
      (by decide)⟩

/-! Machinery for C3: a key whose only nodes sit in one unit bucket. -/

theorem keyBucket_integrateFingerprintFrom {st : DriverGraph} {U : String}
    {k : DependencyKey} (s2 : String) (k2 : DependencyKey) (fp : Option String)
    (h : ∀ m ∈ st.nodes, m.key = k → swiftDepsKey m = U) :
    ∀ m ∈ (integrateFingerprintFrom st s2 k2 fp).2.nodes, m.key = k →
      swiftDepsKey m = U := by
  unfold integrateFingerprintFrom
  cases findNode st s2 k2 with
  | none => exact h
  | some n =>
      by_cases hfp : n.fingerprint = fp
      · simp only [if_pos hfp]
        exact h
      · simp only [if_neg hfp]
        intro m hm hk
        unfold replaceFingerprint at hm
        rcases List.mem_map.1 hm with ⟨n2, hn2, rfl⟩
        by_cases hc : swiftDepsKey n2 = s2 ∧ n2.key = k2
        · simp only [if_pos hc]
          exact h n2 hn2 (by simpa [hc] using hk)
        · simp only [if_neg hc]
          exact h n2 hn2 (by simpa [hc] using hk)

theorem keyBucket_move_ne {st : DriverGraph} {U : String}
    {k k2 : DependencyKey} {d : Option String} (hne : k2 ≠ k)
    (h : ∀ m ∈ st.nodes, m.key = k → swiftDepsKey m = U) :
    ∀ m ∈ (moveNodeToDifferentFile st "" k2 d).nodes, m.key = k →
      swiftDepsKey m = U := by
  intro m hm hk
  unfold moveNodeToDifferentFile at hm
  rcases List.mem_map.1 hm with ⟨n, hn, rfl⟩
  by_cases hc : swiftDepsKey n = "" ∧ n.key = k2
  · exfalso
    rw [if_pos hc] at hk
    exact hne (hc.2 ▸ hk ▸ rfl)
  · rw [if_neg hc] at hk ⊢
    exact h n hn hk

theorem keyBucket_addToMap {st : DriverGraph} {U : String}
    {k : DependencyKey} {n0 : DriverNode} (hnew : n0.key ≠ k)
    (h : ∀ m ∈ st.nodes, m.key = k → swiftDepsKey m = U) :
    ∀ m ∈ (addToMap st n0).nodes, m.key = k → swiftDepsKey m = U := by
  intro m hm hk
  rcases List.mem_append.1 hm with hm2 | hm2
  · exact h m hm2 hk
  · exact absurd hk (List.mem_singleton.1 hm2 ▸ hnew)

theorem keyBucket_eraseNodeAt {st : DriverGraph} {U : String}
    {k : DependencyKey} (s2 : String) (k2 : DependencyKey)
    (h : ∀ m ∈ st.nodes, m.key = k → swiftDepsKey m = U) :
    ∀ m ∈ (eraseNodeAt st s2 k2).nodes, m.key = k → swiftDepsKey m = U :=
  fun m hm hk => h m (List.mem_filter.1 hm).1 hk

theorem countKey_ne_zero_of_hasNodeAt {st : DriverGraph} {s : String}
    {k : DependencyKey} (h : HasNodeAt st s k) :
    countNodesWithKey st k ≠ 0 := by
  obtain ⟨n, hn, _, h2⟩ := h
  intro h0
  unfold countNodesWithKey at h0
  rw [List.length_eq_zero, List.filter_eq_nil_iff] at h0
  exact absurd (by simp [h2] : decide (n.key = k) = true) (h0 n hn)

theorem findNode_blank_none_of_keyBucket {st : DriverGraph} {U : String}
    {k : DependencyKey} (hU : U ≠ "")
    (h : ∀ m ∈ st.nodes, m.key = k → swiftDepsKey m = U) :
    findNode st "" k = none := by
  unfold findNode
  rw [List.find?_eq_none]
  intro n hn
  simp only [decide_eq_true_eq, not_and]
  intro hsk hk
  exact absurd (h n hn hk) (hsk ▸ (Ne.symm hU))

theorem expat_integrand_noop {st : DriverGraph} {j : FrontendNode}
    (hsd : j.swiftDeps = none) (hexpat : findNode st "" j.key = none)
    (hcount : countNodesWithKey st j.key ≠ 0) :
    integrateFrontendNode st j none = (false, st) := by
  unfold integrateFrontendNode
  dsimp only
  simp only [hsd, Option.isSome_none, Bool.false_eq_true, if_false]
  unfold integrateFrontendExpatNode
  rw [hexpat]
  have hd : decide (countNodesWithKey st j.key ≠ 0) = true := by
    simp [hcount]
  simp only [Option.isNone_none, Option.isSome_none, hd, Bool.and_true,
    Bool.true_and, Bool.true_or, if_true]

theorem disappeared_unchanged_expat {g : FrontendGraph}
    {acc : IntegrationAcc} {j : FrontendNode} (hsd : j.swiftDeps = none) :
    (integrateNode g acc j).disappeared = acc.disappeared := by
  unfold integrateNode
  dsimp only
  rw [hsd]
  rfl

theorem integrateNode_st_nodes (g : FrontendGraph) (acc : IntegrationAcc)
    (j : FrontendNode) :
    (integrateNode g acc j).st.nodes =
      (integrateFrontendNode (integrateUsesByDef acc.st g j) j
        (match j.swiftDeps with
         | some sd => findNode (integrateUsesByDef acc.st g j) sd j.key
         | none => none)).2.nodes := by
  unfold integrateNode
  dsimp only
  split <;> rfl

theorem keyBucket_integrateNode {g : FrontendGraph} {acc : IntegrationAcc}
    {U : String} {k : DependencyKey} (hU : U ≠ "") (j : FrontendNode)
    (hj : j.key = k → j.swiftDeps = none) (hHas : HasNodeAt acc.st U k)
    (hW : ∀ m ∈ acc.st.nodes, m.key = k → swiftDepsKey m = U) :
    ∀ m ∈ (integrateNode g acc j).st.nodes, m.key = k →
      swiftDepsKey m = U := by
  have hnodes1 : (integrateUsesByDef acc.st g j).nodes = acc.st.nodes :=
    (onlyUsesDiffer_integrateUsesByDef _ _ _).1
  have hW1 : ∀ m ∈ (integrateUsesByDef acc.st g j).nodes, m.key = k →
      swiftDepsKey m = U := by
    rw [hnodes1]
    exact hW
  have hHas1 : HasNodeAt (integrateUsesByDef acc.st g j) U k :=
    hasNodeAt_of_nodesEq hnodes1 hHas
  intro m hm hk
  rw [integrateNode_st_nodes] at hm
  cases hsw : j.swiftDeps with
  | some sd =>
      rw [hsw] at hm
      have hjk : j.key ≠ k := by
        intro hk2
        have h2 := hj hk2
        rw [h2] at hsw
        exact Option.noConfusion hsw
      have hcore : ∀ m2 ∈ (integrateFrontendNode
          (integrateUsesByDef acc.st g j) j
          (findNode (integrateUsesByDef acc.st g j) sd j.key)).2.nodes,
          m2.key = k → swiftDepsKey m2 = U := by
        unfold integrateFrontendNode
        dsimp only
        simp only [hsw, Option.isSome_some, if_true]
        unfold integrateFrontendDeclNode
        cases hp : findNode (integrateUsesByDef acc.st g j) sd j.key with
        | some n =>
            try dsimp only
            exact keyBucket_integrateFingerprintFrom _ _ _ hW1
        | none =>
            try dsimp only
            cases he : findNode (integrateUsesByDef acc.st g j) "" j.key with
            | some e0 =>
                try dsimp only
                exact keyBucket_integrateFingerprintFrom _ _ _
                  (keyBucket_move_ne hjk hW1)
            | none =>
                try dsimp only
                unfold integrateByCreatingANewNode
                exact keyBucket_addToMap hjk hW1
      exact hcore m hm hk
  | none =>
      rw [hsw] at hm
      have hcore : ∀ m2 ∈ (integrateFrontendNode
          (integrateUsesByDef acc.st g j) j none).2.nodes,
          m2.key = k → swiftDepsKey m2 = U := by
        by_cases hjk : j.key = k
        · rw [expat_integrand_noop hsw
            (by rw [hjk]; exact findNode_blank_none_of_keyBucket hU hW1)
            (by rw [hjk]; exact countKey_ne_zero_of_hasNodeAt hHas1)]
          exact hW1
        · unfold integrateFrontendNode
          dsimp only
          simp only [hsw, Option.isSome_none, Bool.false_eq_true, if_false]
          unfold integrateFrontendExpatNode
          split
          · exact hW1
          · unfold integrateByCreatingANewNode
            exact keyBucket_addToMap hjk hW1
      exact hcore m hm hk

/-- C3 is false as stated: starting from a graph whose only node for the key
is resident in place in the merging unit (no expatriate, no duplicates),
merging a snapshot holding only an expatriate fact for the key leaves NO node
for the key at all: the resident node is removed rather than demoted to
expatriate, though the key is indeed reported changed. -/
theorem expat_demotion_cex :
    findNode (integrate declSnapshot emptyGraph).2 "a.swiftdeps" kPlain =
      some ⟨kPlain, none, some "a.swiftdeps"⟩ ∧
    findNode (integrate declSnapshot emptyGraph).2 "" kPlain = none ∧
    countNodesWithKey (integrate declSnapshot emptyGraph).2 kPlain = 1 ∧
    (∀ m ∈ (integrateChanged expatSnapshot
        (integrate declSnapshot emptyGraph).2).2.nodes, m.key ≠ kPlain) ∧
    kPlain ∈ (integrateChanged expatSnapshot
        (integrate declSnapshot emptyGraph).2).1 :=
  ⟨by decide, by decide, by decide, by decide, by decide⟩

/-- C3 (amended): when a merge for a unit processes an expatriate fact for a
key whose only nodes are resident in place in that same unit, the expatriate
fact is a no-op (the in-place resident is treated as an existing definition);
the resident node, not being revisited, is removed in the disappeared phase,
the key is reported changed through disappearance, and no node for the key,
expatriate or resident, survives the merge. -/
theorem expat_fact_with_inplace_resident (st0 : DriverGraph)
    (g : FrontendGraph) (U : String) (k : DependencyKey) (hU : U ≠ "")
    (hgU : g.swiftDeps = U)
    (hex : ∃ j ∈ g.nodes, j.key = k ∧ j.swiftDeps = none)
    (hall : ∀ j ∈ g.nodes, j.key = k → j.swiftDeps = none)
    (hres : HasNodeAt st0 U k)
    (honly : ∀ n ∈ st0.nodes, n.key = k → swiftDepsKey n = U) :
    k ∈ (integrateChanged g st0).1 ∧
    ∀ m ∈ (integrateChanged g st0).2.nodes, m.key ≠ k := by
  have hV := foldl_pres_mem
    (fun acc : IntegrationAcc => HasNodeAt acc.st U k ∧
      (∀ m ∈ acc.st.nodes, m.key = k → swiftDepsKey m = U) ∧
      k ∈ acc.disappeared)
    (integrateNode g) g.nodes
    (by
      intro acc j hj hh
      obtain ⟨hH, hW, hD⟩ := hh
      refine ⟨hasNodeAt_integrateNode j hU hH,
        keyBucket_integrateNode hU j (hall j hj) hH hW, ?_⟩
      by_cases hjk : j.key = k
      · rw [disappeared_unchanged_expat (hall j hj hjk)]
        exact hD
      · exact mem_disappeared_integrateNode hjk hD)
    ⟨st0, (st0.nodes.filter (fun n =>
      decide (swiftDepsKey n = g.swiftDeps))).map (fun n => n.key), []⟩
    ⟨hres, honly, by rw [hgU]; exact mem_disappeared0_of_hasNodeAt hres⟩
  constructor
  · unfold integrateChanged
    dsimp only
    exact phase_mem_changed _ k _ _ hV.2.2
  · unfold integrateChanged
    dsimp only
    refine foldl_estab_under
      (fun r : List DependencyKey × DriverGraph =>
        ∀ m ∈ r.2.nodes, m.key = k → swiftDepsKey m = U)
      (fun r : List DependencyKey × DriverGraph =>
        ∀ m ∈ r.2.nodes, m.key ≠ k)
      _ k ?_ ?_ ?_ _ _ hV.2.1 hV.2.2
    · intro a b hq
      exact keyBucket_eraseNodeAt _ _ hq
    · intro a b hr m hm
      exact hr m (List.mem_filter.1 hm).1
    · intro a hq m hm hk
      have h2 := List.mem_filter.1 hm
      have h3 := h2.2
      simp only [decide_eq_true_eq] at h3
      exact h3 ⟨by rw [hgU]; exact hq m h2.1 hk, hk⟩

/-- Witness for the amended C3 theorem at the concrete one-resident graph. -/
theorem expat_fact_with_inplace_resident_witness :
    ("a.swiftdeps" ≠ "" ∧ expatSnapshot.swiftDeps = "a.swiftdeps" ∧
      (∃ j ∈ expatSnapshot.nodes, j.key = kPlain ∧ j.swiftDeps = none) ∧
      (∀ j ∈ expatSnapshot.nodes, j.key = kPlain → j.swiftDeps = none) ∧
      HasNodeAt (integrate declSnapshot emptyGraph).2 "a.swiftdeps" kPlain ∧
      (∀ n ∈ (integrate declSnapshot emptyGraph).2.nodes, n.key = kPlain →
        swiftDepsKey n = "a.swiftdeps")) ∧
    (kPlain ∈ (integrateChanged expatSnapshot
        (integrate declSnapshot emptyGraph).2).1 ∧
      ∀ m ∈ (integrateChanged expatSnapshot
        (integrate declSnapshot emptyGraph).2).2.nodes, m.key ≠ kPlain) :=
  ⟨⟨by decide, by decide, by decide, by decide, by decide, by decide⟩,
    expat_fact_with_inplace_resident (integrate declSnapshot emptyGraph).2
      expatSnapshot "a.swiftdeps" kPlain (by decide) (by decide) (by decide)
      (by decide) (by decide) (by decide)⟩

/-- C2 is false as stated: merge unit a.swiftdeps declaring a key, then merge
a snapshot of the same unit holding only an expatriate use of that key.  The
first of the two identical merges removes the resident node and records no
expatriate; the second one recreates the expatriate, reports the key changed
(AffectsDownstream rather than UpToDate) and leaves a different graph. -/
theorem merge_idempotence_cex :
    (integrate expatSnapshot (integrate expatSnapshot
      (integrate declSnapshot emptyGraph).2).2).1 ≠ LoadResult.upToDate ∧
    (integrate expatSnapshot (integrate expatSnapshot
      (integrate declSnapshot emptyGraph).2).2).2 ≠
      (integrate expatSnapshot (integrate declSnapshot emptyGraph).2).2 :=
  ⟨by decide, by decide⟩

/-! Further lookup lemmas for the C2 idempotence development. -/

theorem foldl_estab_under_mem {α β : Type} (Q R : α → Prop)
    (step : α → β → α) (bb : β) :
    ∀ (l : List β), (∀ a b, b ∈ l → Q a → Q (step a b)) →
      (∀ a b, b ∈ l → R a → R (step a b)) →
      (∀ a, Q a → R (step a bb)) →
      ∀ a : α, Q a → bb ∈ l → R (l.foldl step a) := by
  intro l
  induction l with
  | nil => intro _ _ _ a _ hm; exact absurd hm (List.not_mem_nil bb)
  | cons b t ih =>
      intro hQ hR hest a hQa hm
      simp only [List.foldl_cons]
      rcases List.mem_cons.1 hm with rfl | hb
      · exact foldl_pres_mem R step t
          (fun a2 b2 hb2 => hR a2 b2 (List.mem_cons_of_mem _ hb2)) _
          (hest a hQa)
      · exact ih (fun a2 b2 hb2 => hQ a2 b2 (List.mem_cons_of_mem _ hb2))
          (fun a2 b2 hb2 => hR a2 b2 (List.mem_cons_of_mem _ hb2))
          hest _ (hQ a b (List.mem_cons_self b t) hQa) hb

theorem eq_of_pairwise_slots {l : List FrontendNode}
    (hp : l.Pairwise (fun a b =>
      (frontendDepsKey a, a.key) ≠ (frontendDepsKey b, b.key)))
    {i j : FrontendNode} (hi : i ∈ l) (hj : j ∈ l)
    (hs : (frontendDepsKey i, i.key) = (frontendDepsKey j, j.key)) :
    i = j := by
  induction l with
  | nil => exact absurd hi (List.not_mem_nil i)
  | cons a t ih =>
      rw [List.pairwise_cons] at hp
      rcases List.mem_cons.1 hi with rfl | hi2
      · rcases List.mem_cons.1 hj with rfl | hj2
        · rfl
        · exact absurd hs (hp.1 j hj2)
      · rcases List.mem_cons.1 hj with rfl | hj2
        · exact absurd hs.symm (hp.1 i hi2)
        · exact ih hp.2 hi2 hj2

theorem findNode_replaceFingerprint_ne {st : DriverGraph} {s s2 : String}
    {k k2 : DependencyKey} (fp : Option String)
    (hne : (s2, k2) ≠ (s, k)) :
    findNode (replaceFingerprint st s2 k2 fp) s k = findNode st s k := by
  unfold findNode replaceFingerprint
  induction st.nodes with
  | nil => rfl
  | cons a t ih =>
      by_cases ha : swiftDepsKey a = s2 ∧ a.key = k2
      · have hnm : ¬(swiftDepsKey a = s ∧ a.key = k) := by
          intro hc
          exact hne (by rw [← ha.1, ← ha.2, hc.1, hc.2])
        simp only [List.map_cons, if_pos ha]
        rw [List.find?_cons_of_neg _ (by simpa using hnm),
          List.find?_cons_of_neg _ (by simpa using hnm)]
        exact ih
      · simp only [List.map_cons, if_neg ha]
        by_cases hm : swiftDepsKey a = s ∧ a.key = k
        · rw [List.find?_cons_of_pos _ (by simpa using hm),
            List.find?_cons_of_pos _ (by simpa using hm)]
        · rw [List.find?_cons_of_neg _ (by simpa using hm),
            List.find?_cons_of_neg _ (by simpa using hm)]
          exact ih

theorem findNode_move_blank_ne {st : DriverGraph} {s : String}
    {k k2 : DependencyKey} {d : Option String} (hs : s ≠ "")
    (hne : (d.getD "", k2) ≠ (s, k)) :
    findNode (moveNodeToDifferentFile st "" k2 d) s k = findNode st s k := by
  unfold findNode moveNodeToDifferentFile
  induction st.nodes with
  | nil => rfl
  | cons a t ih =>
      by_cases ha : swiftDepsKey a = "" ∧ a.key = k2
      · have hnm : ¬(swiftDepsKey a = s ∧ a.key = k) := by
          intro hc
          exact hs (hc.1 ▸ ha.1 ▸ rfl)
        have hnm2 : ¬(swiftDepsKey { a with swiftDeps := d } = s ∧
            ({ a with swiftDeps := d } : DriverNode).key = k) := by
          intro hc
          exact hne (by rw [← hc.1, ← hc.2, ha.2]; rfl)
        simp only [List.map_cons, if_pos ha]
        rw [List.find?_cons_of_neg _ (by simpa using hnm2),
          List.find?_cons_of_neg _ (by simpa using hnm)]
        exact ih
      · simp only [List.map_cons, if_neg ha]
        by_cases hm : swiftDepsKey a = s ∧ a.key = k
        · rw [List.find?_cons_of_pos _ (by simpa using hm),
            List.find?_cons_of_pos _ (by simpa using hm)]
        · rw [List.find?_cons_of_neg _ (by simpa using hm),
            List.find?_cons_of_neg _ (by simpa using hm)]
          exact ih

theorem findNode_addToMap_of_isSome {st : DriverGraph} {s : String}
    {k : DependencyKey} (n0 : DriverNode)
    (h : (findNode st s k).isSome) :
    findNode (addToMap st n0) s k = findNode st s k := by
  unfold findNode addToMap at *
  rw [List.find?_append]
  cases hf : st.nodes.find? (fun n => decide (swiftDepsKey n = s ∧ n.key = k)) with
  | none => rw [hf] at h; exact absurd h (by simp)
  | some n => rfl

theorem findNode_eraseNodeAt_ne {st : DriverGraph} {s s2 : String}
    {k k2 : DependencyKey} (hne : (s2, k2) ≠ (s, k)) :
    findNode (eraseNodeAt st s2 k2) s k = findNode st s k := by
  unfold findNode eraseNodeAt
  induction st.nodes with
  | nil => rfl
  | cons a t ih =>
      by_cases ha : swiftDepsKey a = s2 ∧ a.key = k2
      · have hnm : ¬(swiftDepsKey a = s ∧ a.key = k) := by
          intro hc
          exact hne (by rw [← ha.1, ← ha.2, hc.1, hc.2])
        rw [List.filter_cons]
        rw [if_neg (by simp [ha.1, ha.2])]
        rw [List.find?_cons_of_neg _ (by simpa using hnm)]
        exact ih
      · rw [List.filter_cons]
        rw [if_pos (decide_eq_true ha)]
        by_cases hm : swiftDepsKey a = s ∧ a.key = k
        · rw [List.find?_cons_of_pos _ (by simpa using hm),
            List.find?_cons_of_pos _ (by simpa using hm)]
        · rw [List.find?_cons_of_neg _ (by simpa using hm),
            List.find?_cons_of_neg _ (by simpa using hm)]
          exact ih

/-! Key existence is preserved by every map mutation of a merge and is
established by the own step of an expatriate integrand. -/

theorem keyExists_of_nodesEq {st st' : DriverGraph}
    (h : st'.nodes = st.nodes) {k : DependencyKey} (h2 : KeyExists st k) :
    KeyExists st' k := by
  unfold KeyExists at *
  rw [h]
  exact h2

theorem findNode_some_mem {st : DriverGraph} {s : String} {k : DependencyKey}
    {n : DriverNode} (h : findNode st s k = some n) :
    n ∈ st.nodes ∧ swiftDepsKey n = s ∧ n.key = k := by
  unfold findNode at h
  refine ⟨List.mem_of_find?_eq_some h, ?_⟩
  have h2 := List.find?_some h
  simpa using h2

theorem keyExists_of_countKey_ne_zero {st : DriverGraph} {k : DependencyKey}
    (h : countNodesWithKey st k ≠ 0) : KeyExists st k := by
  unfold countNodesWithKey at h
  cases hf : st.nodes.filter (fun n => decide (n.key = k)) with
  | nil => rw [hf] at h; exact absurd rfl h
  | cons n t =>
      have hn : n ∈ st.nodes.filter (fun n => decide (n.key = k)) := by
        rw [hf]; exact List.mem_cons_self n t
      have h2 := List.mem_filter.1 hn
      exact ⟨n, h2.1, by simpa using h2.2⟩

theorem keyExists_replaceFingerprint {st : DriverGraph} {k : DependencyKey}
    (s2 : String) (k2 : DependencyKey) (fp : Option String)
    (h : KeyExists st k) : KeyExists (replaceFingerprint st s2 k2 fp) k := by
  obtain ⟨n, hn, hk⟩ := h
  unfold replaceFingerprint
  refine ⟨_, List.mem_map_of_mem
    (fun n => if swiftDepsKey n = s2 ∧ n.key = k2 then
      { n with fingerprint := fp } else n) hn, ?_⟩
  by_cases hc : swiftDepsKey n = s2 ∧ n.key = k2
  · simp only [if_pos hc]; exact hk
  · simp only [if_neg hc]; exact hk

theorem keyExists_move {st : DriverGraph} {k : DependencyKey} (s2 : String)
    (k2 : DependencyKey) (d : Option String) (h : KeyExists st k) :
    KeyExists (moveNodeToDifferentFile st s2 k2 d) k := by
  obtain ⟨n, hn, hk⟩ := h
  unfold moveNodeToDifferentFile
  refine ⟨_, List.mem_map_of_mem
    (fun n => if swiftDepsKey n = s2 ∧ n.key = k2 then
      { n with swiftDeps := d } else n) hn, ?_⟩
  by_cases hc : swiftDepsKey n = s2 ∧ n.key = k2
  · simp only [if_pos hc]; exact hk
  · simp only [if_neg hc]; exact hk

theorem keyExists_addToMap {st : DriverGraph} {k : DependencyKey}
    (n0 : DriverNode) (h : KeyExists st k) : KeyExists (addToMap st n0) k := by
  obtain ⟨n, hn, hk⟩ := h
  exact ⟨n, List.mem_append_left _ hn, hk⟩

theorem keyExists_integrateFingerprintFrom {st : DriverGraph}
    {k : DependencyKey} (s2 : String) (k2 : DependencyKey) (fp : Option String)
    (h : KeyExists st k) :
    KeyExists (integrateFingerprintFrom st s2 k2 fp).2 k := by
  unfold integrateFingerprintFrom
  cases findNode st s2 k2 with
  | none => exact h
  | some n =>
      by_cases hfp : n.fingerprint = fp
      · simp only [if_pos hfp]
        exact h
      · simp only [if_neg hfp]
        exact keyExists_replaceFingerprint _ _ _ h

theorem keyExists_integrateFrontendDeclNode {st : DriverGraph}
    {k : DependencyKey} (i : FrontendNode) (p e : Option DriverNode)
    (h : KeyExists st k) :
    KeyExists (integrateFrontendDeclNode st i p e).2 k := by
  unfold integrateFrontendDeclNode
  cases p with
  | some n => exact keyExists_integrateFingerprintFrom _ _ _ h
  | none =>
      cases e with
      | some n0 =>
          exact keyExists_integrateFingerprintFrom _ _ _
            (keyExists_move _ _ _ h)
      | none => exact keyExists_addToMap _ h

theorem keyExists_integrateFrontendExpatNode {st : DriverGraph}
    {k : DependencyKey} (i : FrontendNode) (p e : Option DriverNode)
    (dups : Bool) (h : KeyExists st k) :
    KeyExists (integrateFrontendExpatNode st i p e dups).2 k := by
  unfold integrateFrontendExpatNode
  split
  · exact h
  · cases p with
    | some n =>
        exact keyExists_move _ _ _
          (keyExists_integrateFingerprintFrom _ _ _ h)
    | none => exact keyExists_addToMap _ h

theorem keyExists_integrateFrontendNode {st : DriverGraph} {k : DependencyKey}
    (i : FrontendNode) (p : Option DriverNode) (h : KeyExists st k) :
    KeyExists (integrateFrontendNode st i p).2 k := by
  unfold integrateFrontendNode
  dsimp only
  split
  · exact keyExists_integrateFrontendDeclNode _ _ _ h
  · exact keyExists_integrateFrontendExpatNode _ _ _ _ h

theorem keyExists_integrateNode {g : FrontendGraph} {acc : IntegrationAcc}
    {k : DependencyKey} (j : FrontendNode) (h : KeyExists acc.st k) :
    KeyExists (integrateNode g acc j).st k := by
  have h1 : KeyExists (integrateUsesByDef acc.st g j) k :=
    keyExists_of_nodesEq (onlyUsesDiffer_integrateUsesByDef _ _ _).1 h
  exact keyExists_of_nodesEq (integrateNode_st_nodes g acc j)
    (keyExists_integrateFrontendNode _ _ h1)

theorem keyExists_after_expat_integrand {st : DriverGraph} {i : FrontendNode}
    (hsd : i.swiftDeps = none) :
    KeyExists (integrateFrontendNode st i none).2 i.key := by
  unfold integrateFrontendNode
  dsimp only
  simp only [hsd, Option.isSome_none, Bool.false_eq_true, if_false]
  unfold integrateFrontendExpatNode
  split
  · rename_i hcond
    rw [Bool.or_eq_true] at hcond
    rcases hcond with hdups | hexp
    · rw [Bool.and_eq_true] at hdups
      exact keyExists_of_countKey_ne_zero (of_decide_eq_true hdups.2)
    · cases he : findNode st "" i.key with
      | none => rw [he] at hexp; exact absurd hexp (by simp)
      | some e0 =>
          have h2 := findNode_some_mem he
          exact ⟨e0, h2.1, h2.2.2⟩
  · exact ⟨⟨i.key, i.fingerprint, i.swiftDeps⟩,
      List.mem_append_right _ (List.mem_singleton.2 rfl), rfl⟩

theorem keyExists_after_own_expat {g : FrontendGraph} {acc : IntegrationAcc}
    {i : FrontendNode} (hsd : i.swiftDeps = none) :
    KeyExists (integrateNode g acc i).st i.key := by
  refine keyExists_of_nodesEq (integrateNode_st_nodes g acc i) ?_
  rw [hsd]
  exact keyExists_after_expat_integrand hsd

theorem keyExists_eraseNodeAt_ne {st : DriverGraph} {k : DependencyKey}
    (s2 : String) {k2 : DependencyKey} (hne : k ≠ k2) (h : KeyExists st k) :
    KeyExists (eraseNodeAt st s2 k2) k := by
  obtain ⟨n, hn, hk⟩ := h
  refine ⟨n, List.mem_filter.2 ⟨hn, ?_⟩, hk⟩
  simp only [decide_eq_true_eq, not_and]
  intro _ hk2
  exact hne (hk ▸ hk2 ▸ rfl)

/-! Reflection: occupancy of a nonblank slot before a per-node step follows
from occupancy after it, when any integrand carrying the key in question is
expatriate. -/

theorem hasNodeAt_replaceFingerprint_rev {st : DriverGraph} {s : String}
    {k : DependencyKey} (s2 : String) (k2 : DependencyKey) (fp : Option String)
    (h : HasNodeAt (replaceFingerprint st s2 k2 fp) s k) :
    HasNodeAt st s k := by
  obtain ⟨m, hm, h1, h2⟩ := h
  unfold replaceFingerprint at hm
  rcases List.mem_map.1 hm with ⟨n, hn, rfl⟩
  by_cases hc : swiftDepsKey n = s2 ∧ n.key = k2
  · rw [if_pos hc] at h1 h2
    exact ⟨n, hn, h1, h2⟩
  · rw [if_neg hc] at h1 h2
    exact ⟨n, hn, h1, h2⟩

theorem hasNodeAt_integrateFingerprintFrom_rev {st : DriverGraph} {s : String}
    {k : DependencyKey} (s2 : String) (k2 : DependencyKey) (fp : Option String)
    (h : HasNodeAt (integrateFingerprintFrom st s2 k2 fp).2 s k) :
    HasNodeAt st s k := by
  unfold integrateFingerprintFrom at h
  revert h
  cases findNode st s2 k2 with
  | none => exact id
  | some n =>
      by_cases hfp : n.fingerprint = fp
      · simp only [if_pos hfp]
        exact id
      · simp only [if_neg hfp]
        exact hasNodeAt_replaceFingerprint_rev _ _ _

theorem hasNodeAt_move_rev {st : DriverGraph} {s s2 : String}
    {k k2 : DependencyKey} {d : Option String} (hne : k ≠ k2)
    (h : HasNodeAt (moveNodeToDifferentFile st s2 k2 d) s k) :
    HasNodeAt st s k := by
  obtain ⟨m, hm, h1, h2⟩ := h
  unfold moveNodeToDifferentFile at hm
  rcases List.mem_map.1 hm with ⟨n, hn, rfl⟩
  by_cases hc : swiftDepsKey n = s2 ∧ n.key = k2
  · rw [if_pos hc] at h2
    have h3 : n.key = k := h2
    exact absurd (h3.symm.trans hc.2) hne
  · rw [if_neg hc] at h1 h2
    exact ⟨n, hn, h1, h2⟩

theorem hasNodeAt_addToMap_rev {st : DriverGraph} {s : String}
    {k : DependencyKey} {n0 : DriverNode}
    (hne : ¬(swiftDepsKey n0 = s ∧ n0.key = k))
    (h : HasNodeAt (addToMap st n0) s k) : HasNodeAt st s k := by
  obtain ⟨m, hm, h1, h2⟩ := h
  rcases List.mem_append.1 hm with hm2 | hm2
  · exact ⟨m, hm2, h1, h2⟩
  · rw [List.mem_singleton.1 hm2] at h1 h2
    exact absurd ⟨h1, h2⟩ hne

theorem hasNodeAt_integrateNode_rev {g : FrontendGraph} {acc : IntegrationAcc}
    {U : String} {k : DependencyKey} (hU : U ≠ "") (j : FrontendNode)
    (hj : j.key = k → j.swiftDeps = none)
    (h : HasNodeAt (integrateNode g acc j).st U k) : HasNodeAt acc.st U k := by
  have hnodes1 : (integrateUsesByDef acc.st g j).nodes = acc.st.nodes :=
    (onlyUsesDiffer_integrateUsesByDef _ _ _).1
  have h0 : HasNodeAt (integrateFrontendNode (integrateUsesByDef acc.st g j) j
      (match j.swiftDeps with
       | some sd => findNode (integrateUsesByDef acc.st g j) sd j.key
       | none => none)).2 U k :=
    hasNodeAt_of_nodesEq (integrateNode_st_nodes g acc j).symm h
  suffices h2 : HasNodeAt (integrateUsesByDef acc.st g j) U k by
    exact hasNodeAt_of_nodesEq hnodes1.symm h2
  revert h0
  cases hsw : j.swiftDeps with
  | some sd =>
      have hjk : j.key ≠ k := by
        intro hk2
        have h2 := hj hk2
        rw [h2] at hsw
        exact Option.noConfusion hsw
      intro h0
      revert h0
      unfold integrateFrontendNode
      dsimp only
      simp only [hsw, Option.isSome_some, if_true]
      unfold integrateFrontendDeclNode
      cases hp : findNode (integrateUsesByDef acc.st g j) sd j.key with
      | some n =>
          try dsimp only
          exact hasNodeAt_integrateFingerprintFrom_rev _ _ _
      | none =>
          try dsimp only
          cases he : findNode (integrateUsesByDef acc.st g j) "" j.key with
          | some e0 =>
              try dsimp only
              intro h0
              exact hasNodeAt_move_rev (Ne.symm hjk)
                (hasNodeAt_integrateFingerprintFrom_rev _ _ _ h0)
          | none =>
              try dsimp only
              unfold integrateByCreatingANewNode
              exact hasNodeAt_addToMap_rev (fun hc => hjk hc.2)
  | none =>
      intro h0
      revert h0
      unfold integrateFrontendNode
      dsimp only
      simp only [hsw, Option.isSome_none, Bool.false_eq_true, if_false]
      unfold integrateFrontendExpatNode
      split
      · exact id
      · unfold integrateByCreatingANewNode
        refine hasNodeAt_addToMap_rev ?_
        intro hc
        apply hU
        rw [← hc.1]
        show ((⟨j.key, j.fingerprint, j.swiftDeps⟩ :
          DriverNode).swiftDeps.getD "") = ""
        rw [hsw]
        rfl

theorem hasNodeAt_eraseNodeAt_rev {st : DriverGraph} {s s2 : String}
    {k k2 : DependencyKey} (h : HasNodeAt (eraseNodeAt st s2 k2) s k) :
    HasNodeAt st s k := by
  obtain ⟨m, hm, h1, h2⟩ := h
  exact ⟨m, (List.mem_filter.1 hm).1, h1, h2⟩

/-! A declaring integrand of the merged unit always erases its key from the
disappeared set and leaves the slot occupied (the argument behind the
disappearance analysis, factored over the per-node loop). -/

theorem decl_key_erased_in_loop {st0 : DriverGraph} {g : FrontendGraph}
    {U : String} (hU : U ≠ "") (hgU : g.swiftDeps = U)
    {i0 : FrontendNode} (hi0 : i0 ∈ g.nodes) (hi0sd : i0.swiftDeps = some U)
    {k : DependencyKey} (hi0k : i0.key = k) :
    HasNodeAt (g.nodes.foldl (integrateNode g)
      ⟨st0, (st0.nodes.filter (fun n =>
        decide (swiftDepsKey n = g.swiftDeps))).map (fun n => n.key),
        []⟩).st U k ∧
    k ∉ (g.nodes.foldl (integrateNode g)
      ⟨st0, (st0.nodes.filter (fun n =>
        decide (swiftDepsKey n = g.swiftDeps))).map (fun n => n.key),
        []⟩).disappeared := by
  have hQstep : ∀ (acc : IntegrationAcc) (j : FrontendNode),
      (k ∈ acc.disappeared → HasNodeAt acc.st U k) →
      (k ∈ (integrateNode g acc j).disappeared →
        HasNodeAt (integrateNode g acc j).st U k) := by
    intro acc j hq hmem
    exact hasNodeAt_integrateNode j hU
      (hq (disappeared_integrateNode_subset hmem))
  have hRstep : ∀ (acc : IntegrationAcc) (j : FrontendNode),
      (HasNodeAt acc.st U k ∧ k ∉ acc.disappeared) →
      (HasNodeAt (integrateNode g acc j).st U k ∧
        k ∉ (integrateNode g acc j).disappeared) := by
    intro acc j hr
    exact ⟨hasNodeAt_integrateNode j hU hr.1,
      fun hmem => hr.2 (disappeared_integrateNode_subset hmem)⟩
  have hEst : ∀ acc : IntegrationAcc,
      (k ∈ acc.disappeared → HasNodeAt acc.st U k) →
      (HasNodeAt (integrateNode g acc i0).st U k ∧
        k ∉ (integrateNode g acc i0).disappeared) := by
    intro acc hq
    constructor
    · exact hi0k ▸ @hasNodeAt_after_own_decl g acc i0 U hi0sd
    · by_cases hf : findNode (integrateUsesByDef acc.st g i0) U i0.key = none
      · have hnot : ¬HasNodeAt (integrateUsesByDef acc.st g i0) U i0.key := by
          rw [hasNodeAt_iff_findNode, hf]
          simp
        have hnot0 : ¬HasNodeAt acc.st U k := by
          intro hc
          apply hnot
          rw [hi0k]
          exact hasNodeAt_of_nodesEq
            (onlyUsesDiffer_integrateUsesByDef _ _ _).1 hc
        exact fun hmem => hnot0 (hq (disappeared_integrateNode_subset hmem))
      · exact hi0k ▸ not_mem_disappeared_after_found hi0sd hf
  have hQ0 : k ∈ ((st0.nodes.filter (fun n =>
      decide (swiftDepsKey n = g.swiftDeps))).map (fun n => n.key)) →
      HasNodeAt st0 U k := by
    intro hmem
    have h3 := hasNodeAt_of_mem_disappeared0 hmem
    rwa [hgU] at h3
  exact foldl_estab_under
    (fun acc : IntegrationAcc => k ∈ acc.disappeared → HasNodeAt acc.st U k)
    (fun acc : IntegrationAcc => HasNodeAt acc.st U k ∧ k ∉ acc.disappeared)
    (integrateNode g) i0 hQstep hRstep hEst g.nodes
    ⟨st0, (st0.nodes.filter (fun n =>
      decide (swiftDepsKey n = g.swiftDeps))).map (fun n => n.key), []⟩
    hQ0 hi0

/-! When no integrand of the merged unit declares a key, the slot of that key
in the bucket of the unit is dead after the merge: any occupant of the slot
ends up in the disappeared set and is erased. -/

theorem slot_dead_when_no_decl {st0 : DriverGraph} {g : FrontendGraph}
    {U : String} {k : DependencyKey} (hU : U ≠ "") (hgU : g.swiftDeps = U)
    (hno : ∀ j ∈ g.nodes, j.key = k → j.swiftDeps = none) :
    ¬HasNodeAt (integrateChanged g st0).2 U k := by
  have hloop := foldl_pres_mem
    (fun acc : IntegrationAcc => HasNodeAt acc.st U k → k ∈ acc.disappeared)
    (integrateNode g) g.nodes
    (by
      intro acc j hj hP hHas
      have hHas0 : HasNodeAt acc.st U k :=
        hasNodeAt_integrateNode_rev hU j (hno j hj) hHas
      have hmem := hP hHas0
      by_cases hjk : j.key = k
      · rw [disappeared_unchanged_expat (hno j hj hjk)]
        exact hmem
      · exact mem_disappeared_integrateNode hjk hmem)
    ⟨st0, (st0.nodes.filter (fun n =>
      decide (swiftDepsKey n = g.swiftDeps))).map (fun n => n.key), []⟩
    (by
      intro hHas
      rw [hgU]
      exact mem_disappeared0_of_hasNodeAt hHas)
  unfold integrateChanged
  dsimp only
  by_cases hHasF : HasNodeAt (g.nodes.foldl (integrateNode g)
      ⟨st0, (st0.nodes.filter (fun n =>
        decide (swiftDepsKey n = g.swiftDeps))).map (fun n => n.key),
        []⟩).st U k
  · rw [← hgU]
    exact phase_kills_slot _ _ _ _ (hloop hHasF)
  · intro hc
    apply hHasF
    revert hc
    refine foldl_pres
      (fun r : List DependencyKey × DriverGraph =>
        HasNodeAt r.2 U k →
          HasNodeAt (g.nodes.foldl (integrateNode g)
            ⟨st0, (st0.nodes.filter (fun n =>
              decide (swiftDepsKey n = g.swiftDeps))).map (fun n => n.key),
              []⟩).st U k) _ ?_ _ _ ?_
    · intro r k2 hP hHas
      exact hP (hasNodeAt_eraseNodeAt_rev hHas)
    · exact fun h => h

/-! Saturation of the edge index: after a merge, the usesByDef entry of every
integrand exists and holds all its non-self uses, so a second identical merge
adds nothing. -/

theorem map_eq_self_of {α : Type} {f : α → α} :
    ∀ {l : List α}, (∀ a ∈ l, f a = a) → l.map f = l := by
  intro l
  induction l with
  | nil => intro _; rfl
  | cons a t ih =>
      intro h
      rw [List.map_cons, h a (List.mem_cons_self a t),
        ih (fun b hb => h b (List.mem_cons_of_mem a hb))]

theorem isSome_find?_usesEnsure_self
    (u : List (DependencyKey × List DependencyKey)) (d : DependencyKey) :
    ((usesEnsure u d).find? (fun p => decide (p.1 = d))).isSome = true := by
  unfold usesEnsure
  by_cases hs : (u.find? (fun p => decide (p.1 = d))).isSome
  · rw [if_pos hs]
    exact hs
  · rw [if_neg hs, List.find?_append]
    cases hf : u.find? (fun p => decide (p.1 = d)) with
    | some p => rw [hf] at hs; exact absurd rfl hs
    | none => simp

theorem isSome_find?_usesEnsure_mono
    {u : List (DependencyKey × List DependencyKey)} {d : DependencyKey}
    (d2 : DependencyKey)
    (h : (u.find? (fun p => decide (p.1 = d))).isSome = true) :
    ((usesEnsure u d2).find? (fun p => decide (p.1 = d))).isSome = true := by
  unfold usesEnsure
  split
  · exact h
  · rw [List.find?_append]
    cases hf : u.find? (fun p => decide (p.1 = d)) with
    | some p => simp
    | none => rw [hf] at h; exact absurd h (by simp)

theorem isSome_find?_usesAdd
    (u : List (DependencyKey × List DependencyKey)) (d2 use d : DependencyKey) :
    ((usesAdd u d2 use).find? (fun p => decide (p.1 = d))).isSome =
      (u.find? (fun p => decide (p.1 = d))).isSome := by
  rw [find?_usesAdd]
  cases u.find? (fun p => decide (p.1 = d)) with
  | none => rfl
  | some p => rfl

theorem mem_lookupUsesL_usesAdd_self
    {u : List (DependencyKey × List DependencyKey)} {d x : DependencyKey}
    (h : (u.find? (fun p => decide (p.1 = d))).isSome = true) :
    x ∈ lookupUsesL (usesAdd u d x) d := by
  unfold lookupUsesL
  rw [find?_usesAdd]
  cases hf : u.find? (fun p => decide (p.1 = d)) with
  | none => rw [hf] at h; exact absurd h (by simp)
  | some p =>
      have hp : p.1 = d := by
        have h2 := List.find?_some hf
        simpa using h2
      show x ∈ (if p.1 = d then (p.1, insertOnce p.2 x) else p).2
      rw [if_pos hp]
      exact self_mem_insertOnce

theorem mem_lookupUsesL_usesAdd_mono
    {u : List (DependencyKey × List DependencyKey)}
    {d2 use d x : DependencyKey} (h : x ∈ lookupUsesL u d) :
    x ∈ lookupUsesL (usesAdd u d2 use) d := by
  unfold lookupUsesL at h ⊢
  rw [find?_usesAdd]
  cases hf : u.find? (fun p => decide (p.1 = d)) with
  | none => rw [hf] at h; simp at h
  | some p =>
      rw [hf] at h
      have h2 : x ∈ p.2 := h
      show x ∈ (if p.1 = d2 then (p.1, insertOnce p.2 use) else p).2
      by_cases hp : p.1 = d2
      · rw [if_pos hp]
        exact mem_insertOnce.2 (Or.inl h2)
      · rw [if_neg hp]
        exact h2

theorem hasUsesEntry_integrateUsesByDef_pres {st : DriverGraph}
    {d : DependencyKey} (g : FrontendGraph) (i : FrontendNode)
    (h : hasUsesEntry st d = true) :
    hasUsesEntry (integrateUsesByDef st g i) d = true := by
  unfold integrateUsesByDef
  dsimp only
  refine foldl_pres (fun st2 : DriverGraph => hasUsesEntry st2 d = true) _
    ?_ _ _ ?_
  · intro a u ha
    by_cases hk : u.key = i.key
    · rw [if_pos hk]
      exact ha
    · rw [if_neg hk]
      show ((usesAdd a.usesByDef i.key u.key).find?
        (fun p => decide (p.1 = d))).isSome = true
      rw [isSome_find?_usesAdd]
      exact ha
  · exact isSome_find?_usesEnsure_mono i.key h

theorem mem_lookupUses_integrateUsesByDef_pres {st : DriverGraph}
    {d x : DependencyKey} (g : FrontendGraph) (i : FrontendNode)
    (h : x ∈ lookupUses st d) :
    x ∈ lookupUses (integrateUsesByDef st g i) d := by
  unfold integrateUsesByDef
  dsimp only
  refine foldl_pres (fun st2 : DriverGraph => x ∈ lookupUses st2 d) _
    ?_ _ _ ?_
  · intro a u ha
    by_cases hk : u.key = i.key
    · rw [if_pos hk]
      exact ha
    · rw [if_neg hk]
      exact mem_lookupUsesL_usesAdd_mono ha
  · show x ∈ lookupUsesL (usesEnsure st.usesByDef i.key) d
    rw [lookupUsesL_usesEnsure]
    exact h

theorem usesSat_integrateUsesByDef_self (st : DriverGraph) (g : FrontendGraph)
    (i : FrontendNode) :
    hasUsesEntry (integrateUsesByDef st g i) i.key = true ∧
    ∀ u ∈ g.forEachUseOf i, u.key ≠ i.key →
      u.key ∈ lookupUses (integrateUsesByDef st g i) i.key := by
  constructor
  · unfold integrateUsesByDef
    dsimp only
    refine foldl_pres (fun st2 : DriverGraph =>
      hasUsesEntry st2 i.key = true) _ ?_ _ _ ?_
    · intro a u ha
      by_cases hk : u.key = i.key
      · rw [if_pos hk]
        exact ha
      · rw [if_neg hk]
        show ((usesAdd a.usesByDef i.key u.key).find?
          (fun p => decide (p.1 = i.key))).isSome = true
        rw [isSome_find?_usesAdd]
        exact ha
    · exact isSome_find?_usesEnsure_self st.usesByDef i.key
  · intro u0 hu0 hne
    unfold integrateUsesByDef
    dsimp only
    refine foldl_estab_under
      (fun st2 : DriverGraph => hasUsesEntry st2 i.key = true)
      (fun st2 : DriverGraph => u0.key ∈ lookupUses st2 i.key) _ u0
      ?_ ?_ ?_ _ _ ?_ hu0
    · intro a u ha
      by_cases hk : u.key = i.key
      · rw [if_pos hk]
        exact ha
      · rw [if_neg hk]
        show ((usesAdd a.usesByDef i.key u.key).find?
          (fun p => decide (p.1 = i.key))).isSome = true
        rw [isSome_find?_usesAdd]
        exact ha
    · intro a u ha
      by_cases hk : u.key = i.key
      · rw [if_pos hk]
        exact ha
      · rw [if_neg hk]
        exact mem_lookupUsesL_usesAdd_mono ha
    · intro a ha
      rw [if_neg hne]
      exact mem_lookupUsesL_usesAdd_self ha
    · exact isSome_find?_usesEnsure_self st.usesByDef i.key

theorem integrateNode_st_usesByDef (g : FrontendGraph) (acc : IntegrationAcc)
    (j : FrontendNode) :
    (integrateNode g acc j).st.usesByDef =
      (integrateUsesByDef acc.st g j).usesByDef := by
  unfold integrateNode
  dsimp only
  split
  · exact (onlyNodesDiffer_integrateFrontendNode _ j _).1
  · exact (onlyNodesDiffer_integrateFrontendNode _ j _).1

theorem ext_mem_integrateNode_pres {g : FrontendGraph} {acc : IntegrationAcc}
    {x : String} (j : FrontendNode)
    (h : x ∈ acc.st.externalDependencies) :
    x ∈ (integrateNode g acc j).st.externalDependencies := by
  have h1 : (integrateFrontendNode (integrateUsesByDef acc.st g j) j
      (match j.swiftDeps with
       | some sd => findNode (integrateUsesByDef acc.st g j) sd j.key
       | none => none)).2.externalDependencies =
      acc.st.externalDependencies :=
    ((onlyNodesDiffer_integrateFrontendNode _ j _).2.1).trans
      ((onlyUsesDiffer_integrateUsesByDef _ _ _).2.1)
  unfold integrateNode
  dsimp only
  split
  · exact mem_insertOnce.2 (Or.inl (h1 ▸ h))
  · exact h1 ▸ h

theorem ext_mem_integrateNode_self {g : FrontendGraph} {acc : IntegrationAcc}
    {j : FrontendNode} (hkind : j.key.kind = NodeKind.externalDepend) :
    j.key.name ∈ (integrateNode g acc j).st.externalDependencies := by
  unfold integrateNode
  dsimp only
  split
  · exact self_mem_insertOnce
  · rename_i hcond
    exact absurd hkind hcond

theorem integrateChanged_usesByDef_ext (g : FrontendGraph) (st : DriverGraph) :
    (integrateChanged g st).2.usesByDef =
      (g.nodes.foldl (integrateNode g)
        ⟨st, (st.nodes.filter (fun n =>
          decide (swiftDepsKey n = g.swiftDeps))).map (fun n => n.key),
          []⟩).st.usesByDef ∧
    (integrateChanged g st).2.externalDependencies =
      (g.nodes.foldl (integrateNode g)
        ⟨st, (st.nodes.filter (fun n =>
          decide (swiftDepsKey n = g.swiftDeps))).map (fun n => n.key),
          []⟩).st.externalDependencies := by
  unfold integrateChanged
  dsimp only
  refine foldl_pres
    (fun r : List DependencyKey × DriverGraph =>
      r.2.usesByDef = (g.nodes.foldl (integrateNode g)
        ⟨st, (st.nodes.filter (fun n =>
          decide (swiftDepsKey n = g.swiftDeps))).map (fun n => n.key),
          []⟩).st.usesByDef ∧
      r.2.externalDependencies = (g.nodes.foldl (integrateNode g)
        ⟨st, (st.nodes.filter (fun n =>
          decide (swiftDepsKey n = g.swiftDeps))).map (fun n => n.key),
          []⟩).st.externalDependencies) _ ?_ _ _ ⟨rfl, rfl⟩
  intro r k2 hr
  exact hr

theorem usesSat_after_merge {st0 : DriverGraph} {g : FrontendGraph}
    (i : FrontendNode) (hi : i ∈ g.nodes) :
    hasUsesEntry (integrateChanged g st0).2 i.key = true ∧
    ∀ u ∈ g.forEachUseOf i, u.key ≠ i.key →
      u.key ∈ lookupUses (integrateChanged g st0).2 i.key := by
  have hloop := foldl_estab
    (fun acc : IntegrationAcc =>
      hasUsesEntry acc.st i.key = true ∧
      ∀ u ∈ g.forEachUseOf i, u.key ≠ i.key →
        u.key ∈ lookupUses acc.st i.key)
    (integrateNode g) i
    (by
      intro acc j hr
      constructor
      · show ((integrateNode g acc j).st.usesByDef.find?
          (fun p => decide (p.1 = i.key))).isSome = true
        rw [integrateNode_st_usesByDef]
        exact hasUsesEntry_integrateUsesByDef_pres g j hr.1
      · intro u hu hne
        show u.key ∈ lookupUsesL (integrateNode g acc j).st.usesByDef i.key
        rw [integrateNode_st_usesByDef]
        exact mem_lookupUses_integrateUsesByDef_pres g j (hr.2 u hu hne))
    (by
      intro acc
      constructor
      · show ((integrateNode g acc i).st.usesByDef.find?
          (fun p => decide (p.1 = i.key))).isSome = true
        rw [integrateNode_st_usesByDef]
        exact (usesSat_integrateUsesByDef_self acc.st g i).1
      · intro u hu hne
        show u.key ∈ lookupUsesL (integrateNode g acc i).st.usesByDef i.key
        rw [integrateNode_st_usesByDef]
        exact (usesSat_integrateUsesByDef_self acc.st g i).2 u hu hne)
    g.nodes
    ⟨st0, (st0.nodes.filter (fun n =>
      decide (swiftDepsKey n = g.swiftDeps))).map (fun n => n.key), []⟩
    hi
  have hph := integrateChanged_usesByDef_ext g st0
  constructor
  · show ((integrateChanged g st0).2.usesByDef.find?
      (fun p => decide (p.1 = i.key))).isSome = true
    rw [hph.1]
    exact hloop.1
  · intro u hu hne
    show u.key ∈ lookupUsesL (integrateChanged g st0).2.usesByDef i.key
    rw [hph.1]
    exact hloop.2 u hu hne

theorem extSat_after_merge {st0 : DriverGraph} {g : FrontendGraph}
    {i : FrontendNode} (hi : i ∈ g.nodes)
    (hkind : i.key.kind = NodeKind.externalDepend) :
    i.key.name ∈ (integrateChanged g st0).2.externalDependencies := by
  have hloop := foldl_estab
    (fun acc : IntegrationAcc =>
      i.key.name ∈ acc.st.externalDependencies)
    (integrateNode g) i
    (fun acc j hr => ext_mem_integrateNode_pres j hr)
    (fun acc => ext_mem_integrateNode_self hkind)
    g.nodes
    ⟨st0, (st0.nodes.filter (fun n =>
      decide (swiftDepsKey n = g.swiftDeps))).map (fun n => n.key), []⟩
    hi
  rw [(integrateChanged_usesByDef_ext g st0).2]
  exact hloop

/-! A well-formed edge index has at most one entry per def key; merging
preserves this, and against a saturated well-formed index
`integrateUsesByDef` is the identity. -/

theorem pairwiseKeys_usesEnsure
    {u : List (DependencyKey × List DependencyKey)} (d : DependencyKey)
    (hp : u.Pairwise (fun p q => p.1 ≠ q.1)) :
    (usesEnsure u d).Pairwise (fun p q => p.1 ≠ q.1) := by
  unfold usesEnsure
  split
  · exact hp
  · rename_i hs
    rw [List.pairwise_append]
    refine ⟨hp, List.pairwise_singleton _ _, ?_⟩
    intro a ha b hb
    rw [List.mem_singleton.1 hb]
    cases hf : u.find? (fun p => decide (p.1 = d)) with
    | some p => rw [hf] at hs; exact absurd (by simp) hs
    | none =>
        have h2 := List.find?_eq_none.1 hf a ha
        simpa using h2

theorem pairwiseKeys_usesAdd
    {u : List (DependencyKey × List DependencyKey)} (d x : DependencyKey)
    (hp : u.Pairwise (fun p q => p.1 ≠ q.1)) :
    (usesAdd u d x).Pairwise (fun p q => p.1 ≠ q.1) := by
  unfold usesAdd
  rw [List.pairwise_map]
  refine hp.imp ?_
  intro p q h
  have hp1 : (if p.1 = d then (p.1, insertOnce p.2 x) else p).1 = p.1 := by
    by_cases h1 : p.1 = d
    · rw [if_pos h1]
    · rw [if_neg h1]
  have hq1 : (if q.1 = d then (q.1, insertOnce q.2 x) else q).1 = q.1 := by
    by_cases h1 : q.1 = d
    · rw [if_pos h1]
    · rw [if_neg h1]
  rw [hp1, hq1]
  exact h

theorem pairwiseKeys_integrateUsesByDef {st : DriverGraph} (g : FrontendGraph)
    (i : FrontendNode)
    (hp : st.usesByDef.Pairwise (fun p q => p.1 ≠ q.1)) :
    (integrateUsesByDef st g i).usesByDef.Pairwise (fun p q => p.1 ≠ q.1) := by
  unfold integrateUsesByDef
  dsimp only
  refine foldl_pres (fun st2 : DriverGraph =>
    st2.usesByDef.Pairwise (fun p q => p.1 ≠ q.1)) _ ?_ _ _ ?_
  · intro a u ha
    by_cases hk : u.key = i.key
    · rw [if_pos hk]
      exact ha
    · rw [if_neg hk]
      exact pairwiseKeys_usesAdd i.key u.key ha
  · exact pairwiseKeys_usesEnsure i.key hp

theorem pairwiseKeys_after_merge {st0 : DriverGraph} {g : FrontendGraph}
    (hp : st0.usesByDef.Pairwise (fun p q => p.1 ≠ q.1)) :
    (integrateChanged g st0).2.usesByDef.Pairwise (fun p q => p.1 ≠ q.1) := by
  rw [(integrateChanged_usesByDef_ext g st0).1]
  refine foldl_pres (fun acc : IntegrationAcc =>
    acc.st.usesByDef.Pairwise (fun p q => p.1 ≠ q.1)) _ ?_ _ _ ?_
  · intro acc j ha
    rw [integrateNode_st_usesByDef]
    exact pairwiseKeys_integrateUsesByDef g j ha
  · exact hp

theorem usesEnsure_id {u : List (DependencyKey × List DependencyKey)}
    {d : DependencyKey}
    (h : (u.find? (fun p => decide (p.1 = d))).isSome = true) :
    usesEnsure u d = u := by
  unfold usesEnsure
  rw [if_pos h]

theorem usesAdd_id {u : List (DependencyKey × List DependencyKey)}
    {d x : DependencyKey} (hp : u.Pairwise (fun p q => p.1 ≠ q.1))
    (hx : x ∈ lookupUsesL u d) : usesAdd u d x = u := by
  induction u with
  | nil => rfl
  | cons p t ih =>
      rw [List.pairwise_cons] at hp
      show (p :: t).map (fun q =>
        if q.1 = d then (q.1, insertOnce q.2 x) else q) = p :: t
      rw [List.map_cons]
      by_cases hd : p.1 = d
      · have hx2 : x ∈ p.2 := by
          unfold lookupUsesL at hx
          rw [List.find?_cons_of_pos _ (by simp [hd])] at hx
          simpa using hx
        rw [if_pos hd, insertOnce_of_mem hx2]
        have ht : t.map (fun q =>
            if q.1 = d then (q.1, insertOnce q.2 x) else q) = t := by
          refine map_eq_self_of ?_
          intro q hq
          exact if_neg (fun he => (hp.1 q hq) (hd.trans he.symm))
        rw [ht]
      · have hx2 : x ∈ lookupUsesL t d := by
          unfold lookupUsesL at hx ⊢
          rw [List.find?_cons_of_neg _ (by simp [hd])] at hx
          exact hx
        rw [if_neg hd]
        show p :: usesAdd t d x = p :: t
        rw [ih hp.2 hx2]

theorem integrateUsesByDef_id {st : DriverGraph} {g : FrontendGraph}
    {i : FrontendNode} (hp : st.usesByDef.Pairwise (fun p q => p.1 ≠ q.1))
    (hentry : hasUsesEntry st i.key = true)
    (hmem : ∀ u ∈ g.forEachUseOf i, u.key ≠ i.key →
      u.key ∈ lookupUses st i.key) :
    integrateUsesByDef st g i = st := by
  unfold integrateUsesByDef
  dsimp only
  have h1 : ({ st with usesByDef := usesEnsure st.usesByDef i.key } :
      DriverGraph) = st := by
    rw [usesEnsure_id hentry]
  rw [h1]
  refine foldl_pres_mem (fun a : DriverGraph => a = st) _ _ ?_ _ rfl
  intro a u hu ha
  rw [ha]
  by_cases hk : u.key = i.key
  · rw [if_pos hk]
  · rw [if_neg hk]
    have h2 : usesAdd st.usesByDef i.key u.key = st.usesByDef :=
      usesAdd_id hp (hmem u hu hk)
    rw [h2]

/-! The slot of every declaring integrand holds a node carrying the
fingerprint of the integrand once the merge is over: established at the own
step of the integrand, preserved by every other step, untouched by the
disappeared phase. -/

theorem findNode_integrateFingerprintFrom_ne {st : DriverGraph}
    {s s2 : String} {k k2 : DependencyKey} (fp : Option String)
    (hne : (s2, k2) ≠ (s, k)) :
    findNode (integrateFingerprintFrom st s2 k2 fp).2 s k =
      findNode st s k := by
  unfold integrateFingerprintFrom
  cases findNode st s2 k2 with
  | none => rfl
  | some n =>
      try dsimp only
      by_cases hfp : n.fingerprint = fp
      · rw [if_pos hfp]
      · rw [if_neg hfp]
        exact findNode_replaceFingerprint_ne fp hne

theorem findNode_addToMap_ne {st : DriverGraph} {s : String}
    {k : DependencyKey} {n0 : DriverNode}
    (h : ¬(swiftDepsKey n0 = s ∧ n0.key = k)) :
    findNode (addToMap st n0) s k = findNode st s k := by
  unfold findNode addToMap
  rw [List.find?_append]
  cases st.nodes.find? (fun n => decide (swiftDepsKey n = s ∧ n.key = k)) with
  | some n => rfl
  | none =>
      rw [List.find?_cons_of_neg _ (by simpa using h)]
      rfl

theorem findNode_addToMap_self {st : DriverGraph} {s : String}
    {n0 : DriverNode} (hnone : findNode st s n0.key = none)
    (hsk : swiftDepsKey n0 = s) :
    findNode (addToMap st n0) s n0.key = some n0 := by
  unfold findNode at hnone
  unfold findNode addToMap
  rw [List.find?_append, hnone, List.find?_cons_of_pos _ (by simp [hsk])]
  rfl

theorem slotFP_decl_integrand {st : DriverGraph} {i : FrontendNode}
    {sd : String} (hsd : i.swiftDeps = some sd) :
    ∃ n, findNode (integrateFrontendNode st i
        (findNode st sd i.key)).2 sd i.key = some n ∧
      n.fingerprint = i.fingerprint := by
  have hfd : frontendDepsKey i = sd := by
    unfold frontendDepsKey
    rw [hsd]
    rfl
  unfold integrateFrontendNode
  dsimp only
  simp only [hsd, Option.isSome_some, if_true]
  unfold integrateFrontendDeclNode
  cases hp : findNode st sd i.key with
  | some n =>
      try dsimp only
      rw [hfd, findNode_integrateFingerprintFrom_self, hp]
      exact ⟨_, rfl, rfl⟩
  | none =>
      try dsimp only
      simp only [Option.isSome_none, Bool.false_eq_true, if_false]
      cases he : findNode st "" i.key with
      | some e0 =>
          try dsimp only
          rw [hsd, hfd, findNode_integrateFingerprintFrom_self,
            findNode_move_promote hp he]
          exact ⟨_, rfl, rfl⟩
      | none =>
          try dsimp only
          unfold integrateByCreatingANewNode
          refine ⟨_, findNode_addToMap_self hp ?_, rfl⟩
          show i.swiftDeps.getD "" = sd
          rw [hsd]
          rfl

theorem slotFP_after_own_decl {g : FrontendGraph} {acc : IntegrationAcc}
    {i : FrontendNode} {sd : String} (hsd : i.swiftDeps = some sd) :
    ∃ n, findNode (integrateNode g acc i).st sd i.key = some n ∧
      n.fingerprint = i.fingerprint := by
  rw [findNode_of_nodesEq (integrateNode_st_nodes g acc i), hsd]
  exact slotFP_decl_integrand hsd

theorem findNode_integrateNode_ne {g : FrontendGraph} {acc : IntegrationAcc}
    {sd : String} {ki : DependencyKey} (hsd0 : sd ≠ "") (j : FrontendNode)
    (hslot : (frontendDepsKey j, j.key) ≠ (sd, ki)) :
    findNode (integrateNode g acc j).st sd ki = findNode acc.st sd ki := by
  have hX : findNode (integrateUsesByDef acc.st g j) sd ki =
      findNode acc.st sd ki :=
    findNode_of_nodesEq (onlyUsesDiffer_integrateUsesByDef _ _ _).1 sd ki
  rw [findNode_of_nodesEq (integrateNode_st_nodes g acc j), ← hX]
  cases hsw : j.swiftDeps with
  | some sdj =>
      have hfd : frontendDepsKey j = sdj := by
        unfold frontendDepsKey
        rw [hsw]
        rfl
      unfold integrateFrontendNode
      dsimp only
      simp only [hsw, Option.isSome_some, if_true]
      unfold integrateFrontendDeclNode
      cases hp : findNode (integrateUsesByDef acc.st g j) sdj j.key with
      | some n2 =>
          try dsimp only
          exact findNode_integrateFingerprintFrom_ne _ hslot
      | none =>
          try dsimp only
          simp only [Option.isSome_none, Bool.false_eq_true, if_false]
          cases he : findNode (integrateUsesByDef acc.st g j) "" j.key with
          | some e0 =>
              try dsimp only
              rw [findNode_integrateFingerprintFrom_ne _ hslot]
              have hne3 : ((j.swiftDeps).getD "", j.key) ≠ (sd, ki) := hslot
              exact findNode_move_blank_ne hsd0 hne3
          | none =>
              try dsimp only
              unfold integrateByCreatingANewNode
              refine findNode_addToMap_ne ?_
              intro hc
              apply hslot
              have h1 : frontendDepsKey j = sd := hc.1
              have h2 : j.key = ki := hc.2
              rw [h1, h2]
  | none =>
      unfold integrateFrontendNode
      dsimp only
      simp only [hsw, Option.isSome_none, Bool.false_eq_true, if_false]
      unfold integrateFrontendExpatNode
      split
      · rfl
      · try dsimp only
        unfold integrateByCreatingANewNode
        refine findNode_addToMap_ne ?_
        intro hc
        apply hsd0
        rw [← hc.1]
        show j.swiftDeps.getD "" = ""
        rw [hsw]
        rfl

theorem slotFP_after_merge {st0 : DriverGraph} {g : FrontendGraph} {U : String}
    (hU : U ≠ "") (hgU : g.swiftDeps = U)
    (hslots : g.nodes.Pairwise (fun a b =>
      (frontendDepsKey a, a.key) ≠ (frontendDepsKey b, b.key)))
    (hblank : ∀ j ∈ g.nodes, j.swiftDeps ≠ some "")
    {i : FrontendNode} (hi : i ∈ g.nodes) {sd : String}
    (hsd : i.swiftDeps = some sd) :
    ∃ n, findNode (integrateChanged g st0).2 sd i.key = some n ∧
      n.fingerprint = i.fingerprint := by
  have hsd0 : sd ≠ "" := by
    intro hc
    exact hblank i hi (by rw [hsd, hc])
  have hfdi : frontendDepsKey i = sd := by
    unfold frontendDepsKey
    rw [hsd]
    rfl
  have hloop : (∃ n, findNode (g.nodes.foldl (integrateNode g)
      ⟨st0, (st0.nodes.filter (fun n =>
        decide (swiftDepsKey n = g.swiftDeps))).map (fun n => n.key),
        []⟩).st sd i.key = some n ∧ n.fingerprint = i.fingerprint) ∧
      (sd = U → i.key ∉ (g.nodes.foldl (integrateNode g)
      ⟨st0, (st0.nodes.filter (fun n =>
        decide (swiftDepsKey n = g.swiftDeps))).map (fun n => n.key),
        []⟩).disappeared) := by
    refine foldl_estab_under_mem
      (fun acc : IntegrationAcc =>
        i.key ∈ acc.disappeared → HasNodeAt acc.st U i.key)
      (fun acc : IntegrationAcc =>
        (∃ n, findNode acc.st sd i.key = some n ∧
          n.fingerprint = i.fingerprint) ∧
        (sd = U → i.key ∉ acc.disappeared))
      (integrateNode g) i g.nodes ?_ ?_ ?_ _ ?_ hi
    · intro acc j hj hq hmem
      exact hasNodeAt_integrateNode j hU
        (hq (disappeared_integrateNode_subset hmem))
    · intro acc j hj hr
      by_cases hslot : (frontendDepsKey j, j.key) =
          (frontendDepsKey i, i.key)
      · have hji : j = i := eq_of_pairwise_slots hslots hj hi hslot
        subst hji
        constructor
        · exact slotFP_after_own_decl hsd
        · intro hsdU
          obtain ⟨n, hfind, hfp⟩ := hr.1
          have hfX : findNode (integrateUsesByDef acc.st g j) sd j.key =
              some n :=
            (findNode_of_nodesEq
              (onlyUsesDiffer_integrateUsesByDef _ _ _).1 sd j.key).trans hfind
          refine not_mem_disappeared_after_found hsd ?_
          rw [hfX]
          simp
      · have hslot2 : (frontendDepsKey j, j.key) ≠ (sd, i.key) := by
          rw [← hfdi]
          exact hslot
        constructor
        · obtain ⟨n, hfind, hfp⟩ := hr.1
          refine ⟨n, ?_, hfp⟩
          rw [findNode_integrateNode_ne hsd0 j hslot2]
          exact hfind
        · intro hsdU hmem
          exact hr.2 hsdU (disappeared_integrateNode_subset hmem)
    · intro acc hq
      constructor
      · exact slotFP_after_own_decl hsd
      · intro hsdU
        by_cases hf : findNode (integrateUsesByDef acc.st g i) sd i.key = none
        · have hnot : ¬HasNodeAt (integrateUsesByDef acc.st g i)
              sd i.key := by
            rw [hasNodeAt_iff_findNode, hf]
            simp
          have hnot0 : ¬HasNodeAt acc.st U i.key := by
            intro hc
            apply hnot
            rw [hsdU]
            exact hasNodeAt_of_nodesEq
              (onlyUsesDiffer_integrateUsesByDef _ _ _).1 hc
          exact fun hmem =>
            hnot0 (hq (disappeared_integrateNode_subset hmem))
        · exact not_mem_disappeared_after_found hsd hf
    · intro hmem
      have h3 := hasNodeAt_of_mem_disappeared0 hmem
      rwa [hgU] at h3
  obtain ⟨⟨n, hfind, hfp⟩, hnd⟩ := hloop
  refine ⟨n, ?_, hfp⟩
  unfold integrateChanged
  dsimp only
  refine foldl_pres_mem
    (fun r : List DependencyKey × DriverGraph =>
      findNode r.2 sd i.key = some n) _ _ ?_ _ ?_
  · intro r k2 hk2 hrr
    have hne2 : (g.swiftDeps, k2) ≠ (sd, i.key) := by
      by_cases hsdU : sd = U
      · intro hc
        have hkk : k2 = i.key := congrArg Prod.snd hc
        exact hnd hsdU (hkk ▸ hk2)
      · intro hc
        apply hsdU
        have h1 : g.swiftDeps = sd := congrArg Prod.fst hc
        rw [← h1, hgU]
    rw [findNode_eraseNodeAt_ne hne2]
    exact hrr
  · exact hfind

/-! The pieces of the idempotence argument: a saturated state makes every
per-node step of a repeated merge a strict no-op. -/

theorem decl_exists_of_hasNodeAt_after_merge {st0 : DriverGraph}
    {g : FrontendGraph} {U : String} {k : DependencyKey} (hU : U ≠ "")
    (hgU : g.swiftDeps = U)
    (hHas : HasNodeAt (integrateChanged g st0).2 U k) :
    ∃ j ∈ g.nodes, j.key = k ∧ j.swiftDeps ≠ none := by
  by_contra hno
  refine slot_dead_when_no_decl hU hgU ?_ hHas
  intro j hj hk
  by_contra hne
  exact hno ⟨j, hj, hk, hne⟩

theorem keyExists_after_merge {st0 : DriverGraph} {g : FrontendGraph}
    {U : String} (hU : U ≠ "") (hgU : g.swiftDeps = U) {i : FrontendNode}
    (hi : i ∈ g.nodes) (hsd : i.swiftDeps = none)
    (hexp1 : HasNodeAt st0 U i.key →
      ∃ j ∈ g.nodes, j.swiftDeps = some U ∧ j.key = i.key) :
    KeyExists (integrateChanged g st0).2 i.key := by
  have hloop : KeyExists (g.nodes.foldl (integrateNode g)
      ⟨st0, (st0.nodes.filter (fun n =>
        decide (swiftDepsKey n = g.swiftDeps))).map (fun n => n.key),
        []⟩).st i.key :=
    foldl_estab (fun acc : IntegrationAcc => KeyExists acc.st i.key)
      (integrateNode g) i
      (fun acc j ha => keyExists_integrateNode j ha)
      (fun acc => keyExists_after_own_expat hsd)
      g.nodes
      ⟨st0, (st0.nodes.filter (fun n =>
        decide (swiftDepsKey n = g.swiftDeps))).map (fun n => n.key), []⟩
      hi
  by_cases hkd : i.key ∈ (g.nodes.foldl (integrateNode g)
      ⟨st0, (st0.nodes.filter (fun n =>
        decide (swiftDepsKey n = g.swiftDeps))).map (fun n => n.key),
        []⟩).disappeared
  · exfalso
    have hsub : ∀ x ∈ (g.nodes.foldl (integrateNode g)
        ⟨st0, (st0.nodes.filter (fun n =>
          decide (swiftDepsKey n = g.swiftDeps))).map (fun n => n.key),
          []⟩).disappeared,
        x ∈ (st0.nodes.filter (fun n =>
          decide (swiftDepsKey n = g.swiftDeps))).map (fun n => n.key) := by
      refine foldl_pres_mem
        (fun acc : IntegrationAcc => ∀ x ∈ acc.disappeared,
          x ∈ (st0.nodes.filter (fun n =>
            decide (swiftDepsKey n = g.swiftDeps))).map (fun n => n.key))
        (integrateNode g) g.nodes ?_ _ ?_
      · intro acc j2 hj2 hP x hx
        exact hP x (disappeared_integrateNode_subset hx)
      · exact fun x hx => hx
    have hHas0 : HasNodeAt st0 U i.key := by
      have h3 := hasNodeAt_of_mem_disappeared0 (hsub _ hkd)
      rwa [hgU] at h3
    obtain ⟨j, hj, hjsd, hjk⟩ := hexp1 hHas0
    have h4 := @decl_key_erased_in_loop st0 g U hU hgU j hj hjsd i.key hjk
    exact h4.2 hkd
  · unfold integrateChanged
    dsimp only
    refine foldl_pres_mem (fun r : List DependencyKey × DriverGraph =>
      KeyExists r.2 i.key) _ _ ?_ _ ?_
    · intro r k2 hk2 hr
      refine keyExists_eraseNodeAt_ne _ ?_ hr
      intro he
      apply hkd
      rw [he]
      exact hk2
    · exact hloop

theorem decl_integrand_noop {st : DriverGraph} {i : FrontendNode}
    {sd : String} {n : DriverNode} (hsd : i.swiftDeps = some sd)
    (hf : findNode st sd i.key = some n)
    (hfp : n.fingerprint = i.fingerprint) :
    integrateFrontendNode st i (findNode st sd i.key) = (false, st) := by
  have hfd : frontendDepsKey i = sd := by
    unfold frontendDepsKey
    rw [hsd]
    rfl
  unfold integrateFrontendNode
  dsimp only
  simp only [hsd, Option.isSome_some, if_true]
  unfold integrateFrontendDeclNode
  rw [hf]
  try dsimp only
  rw [hfd]
  unfold integrateFingerprintFrom
  rw [hf]
  try dsimp only
  rw [if_pos hfp]

theorem expat_integrand_noop2 {st : DriverGraph} {i : FrontendNode}
    (hsd : i.swiftDeps = none) (hke : KeyExists st i.key) :
    integrateFrontendNode st i none = (false, st) := by
  cases he : findNode st "" i.key with
  | none =>
      refine expat_integrand_noop hsd he ?_
      intro h0
      obtain ⟨n, hn, hk⟩ := hke
      unfold countNodesWithKey at h0
      rw [List.length_eq_zero, List.filter_eq_nil_iff] at h0
      exact absurd (by simp [hk]) (h0 n hn)
  | some e0 =>
      unfold integrateFrontendNode
      dsimp only
      simp only [hsd, Option.isSome_none, Bool.false_eq_true, if_false]
      unfold integrateFrontendExpatNode
      rw [he]
      simp

theorem integrateNode_noop {g : FrontendGraph} {acc : IntegrationAcc}
    {j : FrontendNode}
    (huid : integrateUsesByDef acc.st g j = acc.st)
    (hcore : integrateFrontendNode acc.st j
      (match j.swiftDeps with
       | some sd => findNode acc.st sd j.key
       | none => none) = (false, acc.st))
    (hext : j.key.kind = NodeKind.externalDepend →
      j.key.name ∈ acc.st.externalDependencies) :
    (integrateNode g acc j).st = acc.st ∧
    (integrateNode g acc j).changed = acc.changed := by
  unfold integrateNode
  dsimp only
  rw [huid, hcore]
  try dsimp only
  constructor
  · split
    · rename_i hkind
      rw [insertOnce_of_mem (hext hkind)]
    · rfl
  · rfl

theorem integrateChanged_of_disappeared_nil {g : FrontendGraph}
    {st : DriverGraph}
    (h : (g.nodes.foldl (integrateNode g)
      ⟨st, (st.nodes.filter (fun n =>
        decide (swiftDepsKey n = g.swiftDeps))).map (fun n => n.key),
        []⟩).disappeared = []) :
    integrateChanged g st =
      ((g.nodes.foldl (integrateNode g)
        ⟨st, (st.nodes.filter (fun n =>
          decide (swiftDepsKey n = g.swiftDeps))).map (fun n => n.key),
          []⟩).changed,
       (g.nodes.foldl (integrateNode g)
        ⟨st, (st.nodes.filter (fun n =>
          decide (swiftDepsKey n = g.swiftDeps))).map (fun n => n.key),
          []⟩).st) := by
  unfold integrateChanged
  dsimp only
  rw [h, List.foldl_nil]

/-- C2 (amended): merging the same snapshot twice IS idempotent for
well-formed inputs: the unit is nonempty, the edge index of the starting
graph has at most one entry per def key, the snapshot files each (bucket,
key) slot at most once and claims no empty-named unit, and every expatriate
fact whose key already sits in the bucket of the merged unit comes with a
declaring fact of that unit for the same key.  Then the second merge returns
UpToDate and leaves the graph state exactly as the first merge left it.  The
side conditions cannot be dropped: the companion counterexample shows a
snapshot whose expatriate fact meets a resident node of its own unit, where
the second merge reports changes and alters the state. -/
theorem merge_idempotent (st0 : DriverGraph) (g : FrontendGraph) (U : String)
    (hU : U ≠ "") (hgU : g.swiftDeps = U)
    (hwf : st0.usesByDef.Pairwise (fun p q => p.1 ≠ q.1))
    (hslots : g.nodes.Pairwise (fun a b =>
      (frontendDepsKey a, a.key) ≠ (frontendDepsKey b, b.key)))
    (hblank : ∀ j ∈ g.nodes, j.swiftDeps ≠ some "")
    (hexp : ∀ i ∈ g.nodes, i.swiftDeps = none → HasNodeAt st0 U i.key →
      ∃ j ∈ g.nodes, j.swiftDeps = some U ∧ j.key = i.key) :
    (integrate g (integrate g st0).2).1 = LoadResult.upToDate ∧
    (integrate g (integrate g st0).2).2 = (integrate g st0).2 := by
  have hwf1 : (integrateChanged g st0).2.usesByDef.Pairwise
      (fun p q => p.1 ≠ q.1) := pairwiseKeys_after_merge hwf
  have hSat : ∀ i ∈ g.nodes,
      hasUsesEntry (integrateChanged g st0).2 i.key = true ∧
      ∀ u ∈ g.forEachUseOf i, u.key ≠ i.key →
        u.key ∈ lookupUses (integrateChanged g st0).2 i.key :=
    fun i hi => @usesSat_after_merge st0 g i hi
  have hExt : ∀ i ∈ g.nodes, i.key.kind = NodeKind.externalDepend →
      i.key.name ∈ (integrateChanged g st0).2.externalDependencies :=
    fun i hi hk => @extSat_after_merge st0 g i hi hk
  have hDecl : ∀ i ∈ g.nodes, ∀ sd : String, i.swiftDeps = some sd →
      ∃ n, findNode (integrateChanged g st0).2 sd i.key = some n ∧
        n.fingerprint = i.fingerprint :=
    fun i hi sd hsd =>
      @slotFP_after_merge st0 g U hU hgU hslots hblank i hi sd hsd
  have hExpatKey : ∀ i ∈ g.nodes, i.swiftDeps = none →
      KeyExists (integrateChanged g st0).2 i.key :=
    fun i hi hsd =>
      @keyExists_after_merge st0 g U hU hgU i hi hsd (hexp i hi hsd)
  have hF5 : ∀ k : DependencyKey,
      HasNodeAt (integrateChanged g st0).2 U k →
      ∃ j ∈ g.nodes, j.key = k ∧ j.swiftDeps ≠ none :=
    fun k hk => @decl_exists_of_hasNodeAt_after_merge st0 g U k hU hgU hk
  have hstep : ∀ (acc : IntegrationAcc) (j : FrontendNode), j ∈ g.nodes →
      (acc.st = (integrateChanged g st0).2 ∧ acc.changed = []) →
      ((integrateNode g acc j).st = (integrateChanged g st0).2 ∧
        (integrateNode g acc j).changed = []) := by
    intro acc j hj hM
    obtain ⟨hst, hch⟩ := hM
    have huid : integrateUsesByDef acc.st g j = acc.st := by
      rw [hst]
      exact integrateUsesByDef_id hwf1 (hSat j hj).1 (hSat j hj).2
    have hcore : integrateFrontendNode acc.st j
        (match j.swiftDeps with
         | some sd => findNode acc.st sd j.key
         | none => none) = (false, acc.st) := by
      rw [hst]
      cases hsw : j.swiftDeps with
      | some sd =>
          obtain ⟨n, hf, hfp⟩ := hDecl j hj sd hsw
          exact decl_integrand_noop hsw hf hfp
      | none => exact expat_integrand_noop2 hsw (hExpatKey j hj hsw)
    have hext2 : j.key.kind = NodeKind.externalDepend →
        j.key.name ∈ acc.st.externalDependencies := by
      rw [hst]
      exact hExt j hj
    have hres := integrateNode_noop huid hcore hext2
    exact ⟨hres.1.trans hst, hres.2.trans hch⟩
  have hM := foldl_pres_mem
    (fun acc : IntegrationAcc =>
      acc.st = (integrateChanged g st0).2 ∧ acc.changed = [])
    (integrateNode g) g.nodes hstep
    ⟨(integrateChanged g st0).2,
      ((integrateChanged g st0).2.nodes.filter (fun n =>
        decide (swiftDepsKey n = g.swiftDeps))).map (fun n => n.key), []⟩
    ⟨rfl, rfl⟩
  have hD : (g.nodes.foldl (integrateNode g)
      ⟨(integrateChanged g st0).2,
        ((integrateChanged g st0).2.nodes.filter (fun n =>
          decide (swiftDepsKey n = g.swiftDeps))).map (fun n => n.key),
        []⟩).disappeared = [] := by
    rw [List.eq_nil_iff_forall_not_mem]
    intro k hk
    have hsub : ∀ x ∈ (g.nodes.foldl (integrateNode g)
        ⟨(integrateChanged g st0).2,
          ((integrateChanged g st0).2.nodes.filter (fun n =>
            decide (swiftDepsKey n = g.swiftDeps))).map (fun n => n.key),
          []⟩).disappeared,
        x ∈ ((integrateChanged g st0).2.nodes.filter (fun n =>
          decide (swiftDepsKey n = g.swiftDeps))).map (fun n => n.key) := by
      refine foldl_pres_mem
        (fun acc : IntegrationAcc => ∀ x ∈ acc.disappeared,
          x ∈ ((integrateChanged g st0).2.nodes.filter (fun n =>
            decide (swiftDepsKey n = g.swiftDeps))).map (fun n => n.key))
        (integrateNode g) g.nodes ?_ _ ?_
      · intro acc j2 hj2 hP x hx
        exact hP x (disappeared_integrateNode_subset hx)
      · exact fun x hx => hx
    have hHas1 : HasNodeAt (integrateChanged g st0).2 U k := by
      have h3 := hasNodeAt_of_mem_disappeared0 (hsub _ hk)
      rwa [hgU] at h3
    obtain ⟨j, hj, hjk, hjne⟩ := hF5 k hHas1
    cases hjsw : j.swiftDeps with
    | none => exact hjne hjsw
    | some sdj =>
        obtain ⟨n, hf, hfp⟩ := hDecl j hj sdj hjsw
        have hnotmem := foldl_estab_under_mem
          (fun acc : IntegrationAcc =>
            acc.st = (integrateChanged g st0).2 ∧ acc.changed = [])
          (fun acc : IntegrationAcc => k ∉ acc.disappeared)
          (integrateNode g) j g.nodes hstep
          (fun acc b hb hr hmem =>
            hr (disappeared_integrateNode_subset hmem))
          (fun acc hq => by
            have huid2 : integrateUsesByDef acc.st g j = acc.st := by
              rw [hq.1]
              exact integrateUsesByDef_id hwf1 (hSat j hj).1 (hSat j hj).2
            have hf2 : findNode (integrateUsesByDef acc.st g j) sdj
                j.key ≠ none := by
              rw [huid2, hq.1, hf]
              simp
            rw [← hjk]
            exact not_mem_disappeared_after_found hjsw hf2)
          ⟨(integrateChanged g st0).2,
            ((integrateChanged g st0).2.nodes.filter (fun n =>
              decide (swiftDepsKey n = g.swiftDeps))).map (fun n => n.key),
            []⟩
          ⟨rfl, rfl⟩ hj
        exact hnotmem hk
  have hIC : integrateChanged g (integrateChanged g st0).2 =
      ([], (integrateChanged g st0).2) := by
    rw [integrateChanged_of_disappeared_nil hD, hM.2, hM.1]
  have hfinal : integrate g (integrateChanged g st0).2 =
      (LoadResult.upToDate, (integrateChanged g st0).2) := by
    unfold integrate
    dsimp only
    rw [hIC]
    rfl
  constructor
  · show (integrate g (integrateChanged g st0).2).1 = LoadResult.upToDate
    rw [hfinal]
  · show (integrate g (integrateChanged g st0).2).2 =
      (integrateChanged g st0).2
    rw [hfinal]

/-- Witness for the C2 idempotence theorem: a snapshot of unit a.swiftdeps
declaring one key, merged twice into the empty graph; every side condition
holds by evaluation and the second merge is quiet. -/
theorem merge_idempotent_witness :
    (("a.swiftdeps" : String) ≠ "" ∧
      declSnapshot.swiftDeps = "a.swiftdeps" ∧
      emptyGraph.usesByDef.Pairwise (fun p q => p.1 ≠ q.1) ∧
      declSnapshot.nodes.Pairwise (fun a b =>
        (frontendDepsKey a, a.key) ≠ (frontendDepsKey b, b.key)) ∧
      (∀ j ∈ declSnapshot.nodes, j.swiftDeps ≠ some "") ∧
      (∀ i ∈ declSnapshot.nodes, i.swiftDeps = none →
        HasNodeAt emptyGraph "a.swiftdeps" i.key →
        ∃ j ∈ declSnapshot.nodes,
          j.swiftDeps = some "a.swiftdeps" ∧ j.key = i.key)) ∧
    ((integrate declSnapshot (integrate declSnapshot emptyGraph).2).1 =
        LoadResult.upToDate ∧
      (integrate declSnapshot (integrate declSnapshot emptyGraph).2).2 =
        (integrate declSnapshot emptyGraph).2) :=
  ⟨⟨by decide, by decide, by decide, by decide, by decide, by decide⟩,
    merge_idempotent emptyGraph declSnapshot "a.swiftdeps" (by decide)
      (by decide) (by decide) (by decide) (by decide) (by decide)⟩

/-- C8: when the snapshot buffer cannot be parsed into a frontend graph,
`loadFromBuffer` returns the error result and leaves every component of the
driver graph state untouched, the failure occurring before any mutation. -/
theorem loadFromBuffer_error_leaves_graph_untouched (job : String)
    (st : DriverGraph) :
    loadFromBuffer job none st = (LoadResult.hadError, st) :=
  rfl

end ExperimentalDeps
